/-
Verification of the rent_radar crawl-and-reconcile pipeline.

Shallow embedding of:
  - src/crawlers/zigbang.py   (ZigbangCrawler: retry/backoff/cooldown fetch loop,
                               run orchestration, schema-mismatch invariant)
  - src/crawlers/naver.py     (NaverCrawler: _request_articles retry loop, run)
  - src/crawlers/base.py      (CrawlResult)
  - src/db/repositories.py    (upsert_listings, upsert_price_changes,
                               deactivate_stale_listings, upsert_real_trades)
  - src/taskiq_app/dedup.py   (_acquire_memory_lock / release_dedup_lock)

Effectful boundaries (HTTP requests, JSON payload shapes, the SQL engine, the
monotonic clock) are modelled by explicit parameters: response sequences are
lists, the listings store is an explicit in-memory table, times are integers
(seconds) and the monotonic clock is a rational number.  Sleeps only matter to
the program state through the counters that trigger them, which are modelled.
-/
import Mathlib

set_option autoImplicit false

namespace RentRadar

/-- src/crawlers/base.py: CrawlResult dataclass. -/
structure CrawlResult (α : Type) where
  count : Nat
  rows : List α
  errors : List String
deriving DecidableEq

/-! ### Zigbang HTTP fetch layer (src/crawlers/zigbang.py, _request_json_with_retry)

One element of the response list is what one HTTP attempt observes:
a JSON response (a dict payload, or a non-dict body), an HTTP status error
raised by raise_for_status, or any other exception.  -/

inductive HttpOutcome (α : Type) where
  | ok : Option α → HttpOutcome α
  | statusError : Nat → HttpOutcome α
  | otherError : HttpOutcome α
deriving DecidableEq

/-- RETRYABLE_HTTP_STATUS_CODES from src/crawlers/zigbang.py line 33. -/
def RETRYABLE_HTTP_STATUS_CODES : List Nat := [429, 500, 502, 503, 504]

/-- The two knobs of the retry loop that affect its observable state.
ZigbangCrawler.__init__ clamps them with max(0, max_retries) and
max(1, cooldown_threshold), so cooldownThreshold is at least 1 in every
crawler instance. -/
structure RetryConfig where
  maxRetries : Nat
  cooldownThreshold : Nat
deriving DecidableEq

/-- The run-scoped counters self._retry_count / self._cooldown_count, mirrored
into last_run_metrics. -/
structure RetryMetrics where
  retryCount : Nat
  cooldownCount : Nat
deriving DecidableEq

/-- Result of one _request_json_with_retry call: the returned payload (None on
failure), the number of HTTP attempts issued, and the metric counters. -/
structure RequestResult (α : Type) where
  payload : Option α
  attempts : Nat
  metrics : RetryMetrics
deriving DecidableEq

/-- The body of the retry loop of _request_json_with_retry
(src/crawlers/zigbang.py lines 322-381).  attempt is the loop index,
consec429 the local consecutive_429 counter.  Each consumed response is one
HTTP attempt.  Backoff and jitter only determine sleep durations and are not
part of the observable state. -/
def requestJsonWithRetryGo {α : Type} (cfg : RetryConfig) :
    List (HttpOutcome α) → Nat → Nat → RetryMetrics → RequestResult α
  | [], _, _, m => ⟨none, 0, m⟩
  | r :: rest, attempt, consec429, m =>
    match r with
    | .ok payload => ⟨payload, 1, m⟩
    | .otherError => ⟨none, 1, m⟩
    | .statusError code =>
      if code ∈ RETRYABLE_HTTP_STATUS_CODES then
        let m1 : RetryMetrics := { m with retryCount := m.retryCount + 1 }
        if cfg.maxRetries ≤ attempt then ⟨none, 1, m1⟩
        else
          let consec := if code = 429 then consec429 + 1 else 0
          if cfg.cooldownThreshold ≤ consec then
            let m2 : RetryMetrics := { m1 with cooldownCount := m1.cooldownCount + 1 }
            let res := requestJsonWithRetryGo cfg rest (attempt + 1) 0 m2
            { res with attempts := res.attempts + 1 }
          else
            let res := requestJsonWithRetryGo cfg rest (attempt + 1) consec m1
            { res with attempts := res.attempts + 1 }
      else ⟨none, 1, m⟩

/-- ZigbangCrawler._request_json_with_retry: total_attempts = max_retries + 1,
starting from attempt 0 with a fresh consecutive_429 counter. -/
def requestJsonWithRetry {α : Type} (cfg : RetryConfig)
    (responses : List (HttpOutcome α)) : RequestResult α :=
  requestJsonWithRetryGo cfg responses 0 0 ⟨0, 0⟩

/-! ### Naver fetch layer (src/crawlers/naver.py, _request_articles) -/

/-- What one attempt of NaverCrawler._request_articles observes: a parsed JSON
body (success flag and articleList), an HTTP status error, or any other
exception (network error, JSON decode error). -/
inductive NaverOutcome (β : Type) where
  | ok : Bool → List β → NaverOutcome β
  | statusError : Nat → NaverOutcome β
  | otherError : NaverOutcome β
deriving DecidableEq

/-- An exception escaping NaverCrawler._request_articles. -/
inductive NaverFetchRaise where
  | httpStatus : Nat → NaverFetchRaise
  | other : NaverFetchRaise
deriving DecidableEq

/-- Loop body of NaverCrawler._request_articles (src/crawlers/naver.py lines
96-144): for attempt in range(max_retries).  A 429 always continues to the
next iteration (after a backoff sleep, or a giving-up log on the last one);
any other HTTP status error is re-raised; other exceptions propagate; falling
off the loop returns []. -/
def requestArticlesGo {β : Type} (maxRetries : Nat) :
    List (NaverOutcome β) → Nat → Except NaverFetchRaise (List β)
  | [], _ => .ok []
  | r :: rest, attempt =>
    if maxRetries ≤ attempt then .ok []
    else
      match r with
      | .ok success articles => if success then .ok articles else .ok []
      | .otherError => .error .other
      | .statusError code =>
        if code = 429 then requestArticlesGo maxRetries rest (attempt + 1)
        else .error (.httpStatus code)

/-- NaverCrawler._request_articles starting at attempt 0. -/
def requestArticles {β : Type} (maxRetries : Nat)
    (responses : List (NaverOutcome β)) : Except NaverFetchRaise (List β) :=
  requestArticlesGo maxRetries responses 0

/-! ### Execution dedup guard (src/taskiq_app/dedup.py)

The in-process variant _MEMORY_LOCKS: a dict from key to monotonic-clock
expiry.  The Redis variant implements the same SET NX EX contract; the claims
are settled against the memory implementation the tests exercise.  The
monotonic clock is a rational number (a real-valued float in the source). -/

/-- The _MEMORY_LOCKS dict: entries (key, expiry).  The operations keep keys
unique, as a Python dict does. -/
abbrev MemoryLocks := List (String × ℚ)

/-- _acquire_memory_lock (src/taskiq_app/dedup.py lines 20-31): purge every
entry whose expiry is ≤ now, fail if the key is still present, otherwise
record expiry now + ttl.  Returns the acquired flag and the new dict. -/
def acquireMemoryLock (locks : MemoryLocks) (key : String) (ttlSeconds : Int)
    (now : ℚ) : Bool × MemoryLocks :=
  let purged := locks.filter (fun kv => !decide (kv.2 ≤ now))
  if purged.any (fun kv => kv.1 == key) then (false, purged)
  else (true, purged ++ [(key, now + (ttlSeconds : ℚ))])

/-- release_dedup_lock in testing mode (src/taskiq_app/dedup.py lines 49-62):
_MEMORY_LOCKS.pop(key, None). -/
def releaseMemoryLock (locks : MemoryLocks) (key : String) : MemoryLocks :=
  locks.filter (fun kv => !(kv.1 == key))

/-! ### Repositories (src/db/repositories.py): data model -/

/-- ListingUpsert dataclass (src/db/repositories.py lines 50-68).  Decimal
columns are modelled as rationals, integers as Int. -/
structure ListingUpsert where
  source : String
  sourceId : String
  propertyType : String
  rentType : String
  deposit : Int
  monthlyRent : Int
  address : String
  dong : Option String
  detailAddress : Option String
  areaM2 : Option ℚ
  floor : Option Int
  totalFloors : Option Int
  description : Option String
  latitude : Option ℚ
  longitude : Option ℚ
deriving DecidableEq

/-- A persisted row of the listings table (src/models/listing.py).  Datetimes
are epoch seconds.  created_at / updated_at are storage-managed defaults that
no claim mentions and are omitted. -/
structure ListingRow where
  id : Nat
  source : String
  sourceId : String
  propertyType : String
  rentType : String
  deposit : Int
  monthlyRent : Int
  address : String
  dong : Option String
  detailAddress : Option String
  areaM2 : Option ℚ
  floor : Option Int
  totalFloors : Option Int
  description : Option String
  latitude : Option ℚ
  longitude : Option ℚ
  isActive : Bool
  firstSeenAt : Int
  lastSeenAt : Int
deriving DecidableEq

/-- A persisted row of the price_changes table (src/models/price_change.py),
as inserted from a PriceChangeUpsert payload. -/
structure PriceChangeRow where
  listingId : Nat
  oldDeposit : Int
  oldMonthlyRent : Int
  newDeposit : Int
  newMonthlyRent : Int
  changedAt : Int
deriving DecidableEq

/-- The listings store: the listings and price_changes tables plus the
autoincrement counter for the listings surrogate key. -/
structure ListingsDb where
  listings : List ListingRow
  priceChanges : List PriceChangeRow
  nextId : Nat
deriving DecidableEq

/-- The natural key (source, source_id) of an incoming record. -/
def listingKey (r : ListingUpsert) : String × String := (r.source, r.sourceId)

/-- The natural key (source, source_id) of a stored listing. -/
def rowKey (l : ListingRow) : String × String := (l.source, l.sourceId)

/-- The dialect branch of the repository writers: the PostgreSQL bulk
fast path versus the portable row-by-row fallback. -/
inductive SqlDialect where
  | postgresql
  | fallback
deriving DecidableEq

/-! ### upsert_listings (src/db/repositories.py lines 462-606) -/

/-- One step of the last-write-wins key dedup at the top of upsert_listings
(lines 470-473): a Python dict keyed by (source, source_id) keeps the first
insertion position of a key and the last value written to it. -/
def dedupStep (acc : List ListingUpsert) (row : ListingUpsert) :
    List ListingUpsert :=
  if acc.any (fun r => decide (listingKey r = listingKey row)) then
    acc.map (fun r => if listingKey r = listingKey row then row else r)
  else acc ++ [row]

/-- rows = list(seen.values()) after the dedup loop. -/
def dedupeListingRows (rows : List ListingUpsert) : List ListingUpsert :=
  rows.foldl dedupStep []

/-- The column set written on the update branch (fallback lines 583-601, and
identically the ON CONFLICT DO UPDATE set_ of lines 494-511): every mutable
column plus last_seen_at and is_active; property_type, rent_type, id,
first_seen_at are not touched. -/
def applyListingUpdate (l : ListingRow) (r : ListingUpsert) (now : Int) :
    ListingRow :=
  { l with
    deposit := r.deposit
    monthlyRent := r.monthlyRent
    address := r.address
    dong := r.dong
    detailAddress := r.detailAddress
    areaM2 := r.areaM2
    floor := r.floor
    totalFloors := r.totalFloors
    description := r.description
    latitude := r.latitude
    longitude := r.longitude
    lastSeenAt := now
    isActive := true }

/-- The insert branch (fallback lines 547-569, pg VALUES row): a fresh row
with first_seen_at = last_seen_at = now and is_active = true. -/
def newListingRow (r : ListingUpsert) (id : Nat) (now : Int) : ListingRow :=
  { id := id
    source := r.source
    sourceId := r.sourceId
    propertyType := r.propertyType
    rentType := r.rentType
    deposit := r.deposit
    monthlyRent := r.monthlyRent
    address := r.address
    dong := r.dong
    detailAddress := r.detailAddress
    areaM2 := r.areaM2
    floor := r.floor
    totalFloors := r.totalFloors
    description := r.description
    latitude := r.latitude
    longitude := r.longitude
    isActive := true
    firstSeenAt := now
    lastSeenAt := now }

/-- The price-change audit decision against a snapshot of the listings table:
the keyed lookup (existing_map on the pg path, the per-row SELECT on the
fallback path) followed by the deposit / monthly_rent comparison of lines
520 and 572. -/
def listingAuditEntry (snapshot : List ListingRow) (now : Int)
    (r : ListingUpsert) : Option PriceChangeRow :=
  match snapshot.find? (fun l => decide (rowKey l = listingKey r)) with
  | none => none
  | some l =>
    if l.deposit ≠ r.deposit ∨ l.monthlyRent ≠ r.monthlyRent then
      some ⟨l.id, l.deposit, l.monthlyRent, r.deposit, r.monthlyRent, now⟩
    else none

/-- One row of the portable fallback (lines 538-603): keyed existence lookup,
then either an insert, or a price-change audit row (when deposit or
monthly_rent differ) followed by an UPDATE targeting the row id. -/
def upsertListingRowFallback (now : Int) (db : ListingsDb) (r : ListingUpsert) :
    ListingsDb :=
  match db.listings.find? (fun l => decide (rowKey l = listingKey r)) with
  | none =>
    { db with
      listings := db.listings ++ [newListingRow r db.nextId now]
      nextId := db.nextId + 1 }
  | some l =>
    { db with
      priceChanges :=
        if l.deposit ≠ r.deposit ∨ l.monthlyRent ≠ r.monthlyRent then
          db.priceChanges ++
            [⟨l.id, l.deposit, l.monthlyRent, r.deposit, r.monthlyRent, now⟩]
        else db.priceChanges
      listings := db.listings.map (fun l2 =>
        if l2.id = l.id then applyListingUpdate l2 r now else l2) }

/-- One VALUES row of the PostgreSQL INSERT ... ON CONFLICT
(uq_listings_source_source_id) DO UPDATE (lines 493-511): insert when no
stored row shares the (source, source_id) key, otherwise apply the set_
columns to the conflicting row.  Price changes are handled separately from
the pre-statement existing_map. -/
def conflictUpsertListingRow (now : Int) (db : ListingsDb) (r : ListingUpsert) :
    ListingsDb :=
  if db.listings.any (fun l => decide (rowKey l = listingKey r)) then
    { db with
      listings := db.listings.map (fun l =>
        if rowKey l = listingKey r then applyListingUpdate l r now else l) }
  else
    { db with
      listings := db.listings ++ [newListingRow r db.nextId now]
      nextId := db.nextId + 1 }

/-- The PostgreSQL fast path of upsert_listings (lines 479-536): dedup, fetch
existing_map from the pre-statement table, one bulk conflict-resolving write
returning every affected id, then the audit rows computed against
existing_map and appended by upsert_price_changes (whose pg path inserts
every row: the values carry no unique-constrained columns). -/
def upsertListingsPg (db : ListingsDb) (rows : List ListingUpsert)
    (now : Int) : Nat × ListingsDb :=
  let deduped := dedupeListingRows rows
  let written := deduped.foldl (conflictUpsertListingRow now) db
  let changes := deduped.filterMap (listingAuditEntry db.listings now)
  (deduped.length, { written with priceChanges := written.priceChanges ++ changes })

/-- The portable fallback of upsert_listings (lines 538-606): row-by-row;
the inserted counter is incremented on both branches, so the count is the
number of deduplicated rows. -/
def upsertListingsFallback (db : ListingsDb) (rows : List ListingUpsert)
    (now : Int) : Nat × ListingsDb :=
  let deduped := dedupeListingRows rows
  (deduped.length, deduped.foldl (upsertListingRowFallback now) db)

/-- upsert_listings (src/db/repositories.py lines 462-606): early return 0 on
an empty batch, then the dialect branch. -/
def upsertListings (dialect : SqlDialect) (db : ListingsDb)
    (rows : List ListingUpsert) (now : Int) : Nat × ListingsDb :=
  if rows.isEmpty then (0, db)
  else
    match dialect with
    | .postgresql => upsertListingsPg db rows now
    | .fallback => upsertListingsFallback db rows now

/-- Well-formedness of the listings store, maintained by the storage engine:
the (source, source_id) unique constraint, the uniqueness of the surrogate
key, and the autoincrement counter being ahead of every assigned id. -/
def ListingsDb.wf (db : ListingsDb) : Prop :=
  (db.listings.map rowKey).Nodup ∧
  (db.listings.map ListingRow.id).Nodup ∧
  ∀ l ∈ db.listings, l.id < db.nextId

instance (db : ListingsDb) : Decidable db.wf := by
  unfold ListingsDb.wf; infer_instance

/-! ### deactivate_stale_listings (src/db/repositories.py lines 702-720) -/

/-- The reaper predicate of the UPDATE ... WHERE clause: same source,
currently active, last seen strictly before now - threshold_hours. -/
def staleForReaper (source : String) (thresholdTime : Int) (l : ListingRow) :
    Prop :=
  l.source = source ∧ l.isActive = true ∧ l.lastSeenAt < thresholdTime

instance (source : String) (thresholdTime : Int) (l : ListingRow) :
    Decidable (staleForReaper source thresholdTime l) := by
  unfold staleForReaper; infer_instance

/-- deactivate_stale_listings: one set-based UPDATE setting is_active = false
on exactly the rows matching the predicate, returning how many ids it
touched.  threshold_time = now - timedelta(hours=threshold_hours). -/
def deactivateStaleListings (db : ListingsDb) (source : String)
    (thresholdHours : Int) (now : Int) : Nat × ListingsDb :=
  let thresholdTime := now - thresholdHours * 3600
  ((db.listings.filter (fun l => decide (staleForReaper source thresholdTime l))).length,
    { db with
      listings := db.listings.map (fun l =>
        if staleForReaper source thresholdTime l then { l with isActive := false }
        else l) })

/-! ### upsert_real_trades / upsert_sale_trades (src/db/repositories.py
lines 145-187 and 369-411) -/

/-- RealTradeUpsert dataclass (src/db/repositories.py lines 20-36). -/
structure RealTradeUpsert where
  propertyType : String
  rentType : String
  regionCode : String
  dong : String
  aptName : String
  deposit : Int
  monthlyRent : Int
  areaM2 : Option ℚ
  floor : Int
  contractYear : Int
  contractMonth : Int
  contractDay : Int
  tradeCategory : String
deriving DecidableEq

/-- A persisted row of the real_trades table (src/models/real_trade.py). -/
structure RealTradeRow where
  id : Nat
  propertyType : String
  rentType : String
  tradeCategory : String
  regionCode : String
  dong : String
  aptName : String
  deposit : Int
  monthlyRent : Int
  areaM2 : Option ℚ
  floor : Int
  contractYear : Int
  contractMonth : Int
  contractDay : Int
deriving DecidableEq

/-- The real_trades store. -/
structure RealTradesDb where
  trades : List RealTradeRow
  nextId : Nat
deriving DecidableEq

/-- SQL three-valued equality on the nullable area_m2 column: a NULL never
compares equal, neither in a WHERE clause nor for a plain UNIQUE
constraint. -/
def sqlNullableEq (a b : Option ℚ) : Bool :=
  match a, b with
  | some x, some y => decide (x = y)
  | _, _ => false

/-- The columns of the uq_real_trades_identity unique constraint
(src/models/real_trade.py lines 16-30): the full 11-column identity
including trade_category.  This is what the PostgreSQL
ON CONFLICT DO NOTHING path deduplicates on. -/
def pgTradeConflict (l : RealTradeRow) (r : RealTradeUpsert) : Bool :=
  decide (l.propertyType = r.propertyType) &&
  decide (l.regionCode = r.regionCode) &&
  decide (l.dong = r.dong) &&
  decide (l.aptName = r.aptName) &&
  sqlNullableEq l.areaM2 r.areaM2 &&
  decide (l.floor = r.floor) &&
  decide (l.contractYear = r.contractYear) &&
  decide (l.contractMonth = r.contractMonth) &&
  decide (l.contractDay = r.contractDay) &&
  decide (l.rentType = r.rentType) &&
  decide (l.tradeCategory = r.tradeCategory)

/-- The WHERE clause of the fallback existence check of upsert_real_trades
(lines 168-180) and upsert_sale_trades (lines 392-404): ten columns —
trade_category is NOT among them. -/
def fallbackTradeDup (l : RealTradeRow) (r : RealTradeUpsert) : Bool :=
  decide (l.propertyType = r.propertyType) &&
  decide (l.regionCode = r.regionCode) &&
  decide (l.dong = r.dong) &&
  decide (l.aptName = r.aptName) &&
  sqlNullableEq l.areaM2 r.areaM2 &&
  decide (l.floor = r.floor) &&
  decide (l.contractYear = r.contractYear) &&
  decide (l.contractMonth = r.contractMonth) &&
  decide (l.contractDay = r.contractDay) &&
  decide (l.rentType = r.rentType)

/-- A freshly inserted real_trades row. -/
def newRealTradeRow (r : RealTradeUpsert) (id : Nat) : RealTradeRow :=
  { id := id
    propertyType := r.propertyType
    rentType := r.rentType
    tradeCategory := r.tradeCategory
    regionCode := r.regionCode
    dong := r.dong
    aptName := r.aptName
    deposit := r.deposit
    monthlyRent := r.monthlyRent
    areaM2 := r.areaM2
    floor := r.floor
    contractYear := r.contractYear
    contractMonth := r.contractMonth
    contractDay := r.contractDay }

/-- Insert-only step with a duplicate predicate: skip when a stored row
matches, otherwise append; never update an existing row.  Both dialect paths
of upsert_real_trades / upsert_sale_trades instantiate this with their own
predicate. -/
def insertTradeStep (dup : RealTradeRow → RealTradeUpsert → Bool)
    (acc : Nat × RealTradesDb) (r : RealTradeUpsert) : Nat × RealTradesDb :=
  if acc.2.trades.any (fun l => dup l r) then acc
  else
    (acc.1 + 1,
      { trades := acc.2.trades ++ [newRealTradeRow r acc.2.nextId]
        nextId := acc.2.nextId + 1 })

/-- upsert_real_trades (and the identical upsert_sale_trades): early return 0
on an empty batch; the pg path is one INSERT ... ON CONFLICT
(uq_real_trades_identity) DO NOTHING returning the inserted ids; the
fallback runs the ten-column existence check per row (autoflush makes rows
added earlier in the batch visible to it). -/
def upsertRealTrades (dialect : SqlDialect) (db : RealTradesDb)
    (rows : List RealTradeUpsert) : Nat × RealTradesDb :=
  if rows.isEmpty then (0, db)
  else
    match dialect with
    | .postgresql => rows.foldl (insertTradeStep pgTradeConflict) (0, db)
    | .fallback => rows.foldl (insertTradeStep fallbackTradeDup) (0, db)

/-! ### ZigbangCrawler.run (src/crawlers/zigbang.py lines 509-703)

The HTTP fetch layer and the per-item parsers are the oracle functions of a
ZigbangEnv; run is the orchestration over them.  Items and detail payloads
are abstract (they are raw JSON dicts in the source). -/

structure ZigbangEnv (Item Detail : Type) where
  /-- _fetch_apt_item_catalogs: the paginated catalog items for a region code. -/
  fetchAptItemCatalogs : String → List Item
  /-- _search_by_region_name (region_name, property_type, rent_type). -/
  searchByRegionName : String → String → String → List Item
  /-- _fetch_item_details (with its legacy-endpoint fallback). -/
  fetchItemDetails : String → Option Detail
  /-- _extract_detail_listing_candidates over a detail payload. -/
  detailListingCandidates : Detail → List Item
  /-- _extract_source_id ("" when absent). -/
  extractSourceId : Item → String
  /-- str(item.get("tranType", "")).strip().lower(). -/
  tranType : Item → String
  /-- _parse_apt_catalog_item item search_region. -/
  parseAptCatalogItem : Item → String → Option ListingUpsert
  /-- _parse_item item search_region. -/
  parseItem : Item → String → Option ListingUpsert
  /-- tuple(sorted(item.keys())). -/
  topLevelKeys : Item → List String
  /-- sorted keys of item["_source"] when that value is a dict. -/
  sourceKeys : Item → Option (List String)

/-- The mutable run-local state of ZigbangCrawler.run (lines 512-524). -/
structure ZigbangRunState where
  allRows : List ListingUpsert
  errors : List String
  rawItemCount : Nat
  parsedCount : Nat
  invalidCount : Nat
  schemaKeysSample : List (List String)
  sourceKeysSample : List (List String)
  seenSchemaKeys : List (List String)
  seenSourceKeys : List (List String)
  seenSearchItemIds : List String
  seenListingSourceIds : List String
deriving DecidableEq

def zigbangInitState : ZigbangRunState :=
  ⟨[], [], 0, 0, 0, [], [], [], [], [], []⟩

/-- Record a top-level key-set sample (lines 561-568 and 609-616): keep up to
3 distinct non-empty key tuples. -/
def noteSchemaKeys (st : ZigbangRunState) (keys : List String) :
    ZigbangRunState :=
  if keys ≠ [] ∧ keys ∉ st.seenSchemaKeys ∧ st.schemaKeysSample.length < 3 then
    { st with
      seenSchemaKeys := st.seenSchemaKeys ++ [keys]
      schemaKeysSample := st.schemaKeysSample ++ [keys] }
  else st

/-- Record a nested _source key-set sample (lines 618-629). -/
def noteSourceKeys (st : ZigbangRunState) (keys : List String) :
    ZigbangRunState :=
  if keys ≠ [] ∧ keys ∉ st.seenSourceKeys ∧ st.sourceKeysSample.length < 3 then
    { st with
      seenSourceKeys := st.seenSourceKeys ++ [keys]
      sourceKeysSample := st.sourceKeysSample ++ [keys] }
  else st

/-- Append a parsed row after the run-scoped source_id dedup check
(lines 579-584, 639-643 and 667-672). -/
def addParsedRow (st : ZigbangRunState) (row : ListingUpsert) :
    ZigbangRunState :=
  if row.sourceId ∈ st.seenListingSourceIds then st
  else
    { st with
      seenListingSourceIds := st.seenListingSourceIds ++ [row.sourceId]
      allRows := st.allRows ++ [row]
      parsedCount := st.parsedCount + 1 }

/-- The tranType filter and parse of one apartment-catalog item
(lines 570-584), after the key-set sampling. -/
def aptItemStage2 {Item Detail : Type} (env : ZigbangEnv Item Detail)
    (regionName : String) (st : ZigbangRunState) (item : Item) :
    ZigbangRunState :=
  if env.tranType item = "trade" then st
  else
    match env.parseAptCatalogItem item regionName with
    | none => { st with invalidCount := st.invalidCount + 1 }
    | some row => addParsedRow st row

/-- Per-item body of the apartment-catalog path (lines 560-584). -/
def processAptCatalogItem {Item Detail : Type} (env : ZigbangEnv Item Detail)
    (regionName : String) (st : ZigbangRunState) (item : Item) :
    ZigbangRunState :=
  aptItemStage2 env regionName (noteSchemaKeys st (env.topLevelKeys item)) item

/-- Record the nested _source key-set sample when present (lines 618-629). -/
def noteSourceKeysOpt (st : ZigbangRunState) :
    Option (List String) → ZigbangRunState
  | some ks => noteSourceKeys st ks
  | none => st

/-- Parse attempt and detail-endpoint fallback for one search item
(lines 637-674), after the run-scoped search-id dedup recorded sid. -/
def searchItemStage3 {Item Detail : Type} (env : ZigbangEnv Item Detail)
    (regionName : String) (st : ZigbangRunState) (item : Item)
    (sid : String) : ZigbangRunState :=
  match env.parseItem item regionName with
  | some row => addParsedRow st row
  | none =>
    if sid = "" then { st with invalidCount := st.invalidCount + 1 }
    else
      match env.fetchItemDetails sid with
      | none => { st with invalidCount := st.invalidCount + 1 }
      | some d =>
        match (env.detailListingCandidates d).findSome?
            (fun c => env.parseItem c regionName) with
        | some row => addParsedRow st row
        | none => { st with invalidCount := st.invalidCount + 1 }

/-- The search-id dedup of one search item (lines 631-635): skip an already
seen id, record a new non-empty one, then parse. -/
def searchItemStage2 {Item Detail : Type} (env : ZigbangEnv Item Detail)
    (regionName : String) (st : ZigbangRunState) (item : Item) :
    ZigbangRunState :=
  if env.extractSourceId item ≠ "" ∧
      env.extractSourceId item ∈ st.seenSearchItemIds then st
  else
    searchItemStage3 env regionName
      (if env.extractSourceId item ≠ "" then
        { st with seenSearchItemIds :=
            st.seenSearchItemIds ++ [env.extractSourceId item] }
      else st)
      item (env.extractSourceId item)

/-- Per-item body of the search path (lines 608-674). -/
def processSearchItem {Item Detail : Type} (env : ZigbangEnv Item Detail)
    (regionName : String) (st : ZigbangRunState) (item : Item) :
    ZigbangRunState :=
  searchItemStage2 env regionName
    (noteSourceKeysOpt (noteSchemaKeys st (env.topLevelKeys item))
      (env.sourceKeys item))
    item

/-- The apartment-catalog cell (lines 550-594): skip when the fetch returned
nothing, otherwise count the raw items and process each. -/
def processAptCell {Item Detail : Type} (env : ZigbangEnv Item Detail)
    (regionName regionCode : String) (st : ZigbangRunState) :
    ZigbangRunState :=
  if (env.fetchAptItemCatalogs regionCode).isEmpty then st
  else
    (env.fetchAptItemCatalogs regionCode).foldl
      (processAptCatalogItem env regionName)
      { st with rawItemCount :=
          st.rawItemCount + (env.fetchAptItemCatalogs regionCode).length }

/-- One search cell (lines 596-685). -/
def processSearchCell {Item Detail : Type} (env : ZigbangEnv Item Detail)
    (regionName propertyType rentType : String) (st : ZigbangRunState) :
    ZigbangRunState :=
  if (env.searchByRegionName regionName propertyType rentType).isEmpty then st
  else
    (env.searchByRegionName regionName propertyType rentType).foldl
      (processSearchItem env regionName)
      { st with rawItemCount := st.rawItemCount +
          (env.searchByRegionName regionName propertyType rentType).length }

/-- The rent-type inner loop: for rent_type in ["전세", "월세"]. -/
def processRentTypes {Item Detail : Type} (env : ZigbangEnv Item Detail)
    (regionName propertyType : String) (st : ZigbangRunState) :
    ZigbangRunState :=
  ["전세", "월세"].foldl
    (fun s rt => processSearchCell env regionName propertyType rt s) st

/-- One property type of one region (lines 549-594): the catalog strategy for
apartments when a region code is available, the search strategy otherwise. -/
def processPropertyType {Item Detail : Type} (env : ZigbangEnv Item Detail)
    (regionName : String) (regionCode : Option String)
    (propertyType : String) (st : ZigbangRunState) : ZigbangRunState :=
  match regionCode with
  | some code =>
    if propertyType = "아파트" then processAptCell env regionName code st
    else processRentTypes env regionName propertyType st
  | none => processRentTypes env regionName propertyType st

/-- region_code resolution per region index (lines 543-547): a configured
non-empty region_codes list, index in range, stripped entry non-empty. -/
def resolveRegionCode (regionCodes : Option (List String)) (idx : Nat) :
    Option String :=
  match regionCodes with
  | none => none
  | some codes =>
    if codes.isEmpty then none
    else
      match codes[idx]? with
      | none => none
      | some c =>
        let t := c.trim
        if t = "" then none else some t

/-- The full (region × property-type) matrix walk of run. -/
def zigbangRunCells {Item Detail : Type} (env : ZigbangEnv Item Detail)
    (regionNames : List String) (regionCodes : Option (List String))
    (propertyTypes : List String) : ZigbangRunState :=
  regionNames.enum.foldl
    (fun st p =>
      propertyTypes.foldl
        (fun st2 pt =>
          processPropertyType env p.2 (resolveRegionCode regionCodes p.1) pt st2)
        st)
    zigbangInitState

/-- last_run_metrics as published at the end of run (lines 687-695).  The
retry / cooldown counters live in the fetch-layer model
(requestJsonWithRetry) and are not repeated here. -/
structure ZigbangRunMetrics where
  rawCount : Nat
  parsedCount : Nat
  invalidCount : Nat
  schemaKeysSample : List (List String)
  sourceKeysSample : List (List String)
deriving DecidableEq

/-- The data interpolated into the ZigbangSchemaMismatchError message
(lines 697-699). -/
structure SchemaMismatchPayload where
  rawCount : Nat
  parsedCount : Nat
  invalidCount : Nat
  schemaKeysSample : List (List String)
  sourceKeysSample : List (List String)
deriving DecidableEq

/-- End of run (lines 687-703): publish last_run_metrics, raise
ZigbangSchemaMismatchError when raw items were observed but none parsed,
return CrawlResult(count=len(all_rows), rows=all_rows, errors=errors)
otherwise. -/
def zigbangRunFinish (st : ZigbangRunState) :
    Except SchemaMismatchPayload (CrawlResult ListingUpsert) ×
      ZigbangRunMetrics :=
  if 0 < st.rawItemCount ∧ st.parsedCount = 0 then
    (.error ⟨st.rawItemCount, st.parsedCount, st.invalidCount,
      st.schemaKeysSample, st.sourceKeysSample⟩,
      ⟨st.rawItemCount, st.parsedCount, st.invalidCount,
        st.schemaKeysSample, st.sourceKeysSample⟩)
  else
    (.ok ⟨st.allRows.length, st.allRows, st.errors⟩,
      ⟨st.rawItemCount, st.parsedCount, st.invalidCount,
        st.schemaKeysSample, st.sourceKeysSample⟩)

/-- ZigbangCrawler.run: early empty result when no region names are
configured (lines 526-537); otherwise walk the matrix and finish.  errors
is never appended to in this function. -/
def zigbangRun {Item Detail : Type} (env : ZigbangEnv Item Detail)
    (regionNames : List String) (regionCodes : Option (List String))
    (propertyTypes : List String) :
    Except SchemaMismatchPayload (CrawlResult ListingUpsert) ×
      ZigbangRunMetrics :=
  if regionNames.isEmpty then
    (.ok ⟨0, [], []⟩, ⟨0, 0, 0, [], []⟩)
  else
    zigbangRunFinish (zigbangRunCells env regionNames regionCodes propertyTypes)

/-- The run-state invariants the orchestration maintains: the parsed counter
equals the number of collected rows, errors is never written, collected
rows carry pairwise-distinct source ids, and every collected source id has
been recorded in the run-scoped dedup set. -/
def ZigCore (st : ZigbangRunState) : Prop :=
  st.parsedCount = st.allRows.length
  ∧ st.errors = []
  ∧ (st.allRows.map ListingUpsert.sourceId).Nodup
  ∧ ∀ row ∈ st.allRows, row.sourceId ∈ st.seenListingSourceIds

/-- ZigCore plus the raw-item budget: at most one parsed row per raw item. -/
def ZigGood (st : ZigbangRunState) : Prop :=
  ZigCore st ∧ st.parsedCount ≤ st.rawItemCount

/-! ### NaverCrawler.run (src/crawlers/naver.py lines 172-223) -/

structure NaverEnv (Article : Type) where
  /-- The outcome of _request_articles for one (region_code, property_type,
  trade_type) cell: the returned article list, or the exception it raises. -/
  requestArticles : String → String → String →
    Except NaverFetchRaise (List Article)
  /-- _parse_article article region_code. -/
  parseArticle : Article → String → Option ListingUpsert

/-- The message appended to errors by the except blocks of run
(lines 202-219). -/
def naverErrorMessage (e : NaverFetchRaise)
    (regionCode propertyType tradeType : String) : String :=
  match e with
  | .httpStatus code =>
    s!"HTTP {code} error for region_code={regionCode}, property_type={propertyType}, trade_type={tradeType}"
  | .other =>
    s!"Unexpected error for region_code={regionCode}, property_type={propertyType}, trade_type={tradeType}"

/-- One cell of the naver matrix: fetch, then append every article that
parses; a raised exception is caught and recorded in errors. -/
def naverCellStep {Article : Type} (env : NaverEnv Article)
    (acc : List ListingUpsert × List String)
    (regionCode propertyType tradeType : String) :
    List ListingUpsert × List String :=
  match env.requestArticles regionCode propertyType tradeType with
  | .ok articles =>
    (acc.1 ++ articles.filterMap (fun a => env.parseArticle a regionCode), acc.2)
  | .error e =>
    (acc.1, acc.2 ++ [naverErrorMessage e regionCode propertyType tradeType])

/-- CrawlResult(count=len(all_rows), rows=all_rows, errors=errors) as
assembled at the end of NaverCrawler.run. -/
def naverFinish (acc : List ListingUpsert × List String) :
    CrawlResult ListingUpsert :=
  ⟨acc.1.length, acc.1, acc.2⟩

/-- NaverCrawler.run: the (region × property-type × trade-type) triple
loop. -/
def naverRun {Article : Type} (env : NaverEnv Article)
    (regionCodes propertyTypes : List String) : CrawlResult ListingUpsert :=
  naverFinish (regionCodes.foldl
    (fun a rc =>
      propertyTypes.foldl
        (fun a2 pt =>
          ["B1", "B2"].foldl (fun a3 tt => naverCellStep env a3 rc pt tt) a2)
        a)
    ([], []))

/-! ### Specification helpers

These describe the net effect of one upsert_listings call; they are compared
with the translated implementations in the theorems below. -/

/-- The effect of one upsert call on one pre-existing stored row: updated by
the (unique) batch row sharing its key, untouched otherwise. -/
def applyRowsTo (rs : List ListingUpsert) (now : Int) (l : ListingRow) :
    ListingRow :=
  match rs.find? (fun r => decide (listingKey r = rowKey l)) with
  | some r => applyListingUpdate l r now
  | none => l

/-- A batch row is fresh when no stored row shares its natural key. -/
def isFreshRow (listings : List ListingRow) (r : ListingUpsert) : Bool :=
  (listings.find? (fun l => decide (rowKey l = listingKey r))).isNone

/-- The batch rows that insert rather than update. -/
def freshRows (listings : List ListingRow) (rs : List ListingUpsert) :
    List ListingUpsert :=
  rs.filter (isFreshRow listings)

/-- Fresh rows materialized with consecutive surrogate ids. -/
def appendFreshRows : List ListingUpsert → Nat → Int → List ListingRow
  | [], _, _ => []
  | r :: rest, id, now => newListingRow r id now :: appendFreshRows rest (id + 1) now

/-! ### Concrete fixtures used by the witness theorems -/

def sampleUpsertA : ListingUpsert :=
  { source := "zigbang", sourceId := "item-1", propertyType := "apt"
    rentType := "jeonse", deposit := 50000, monthlyRent := 0
    address := "서울 마포구", dong := some "아현동", detailAddress := none
    areaM2 := some 84, floor := some 3, totalFloors := some 15
    description := none, latitude := none, longitude := none }

def sampleUpsertB : ListingUpsert :=
  { sampleUpsertA with deposit := 48000 }

/-- A store holding sampleUpsertA as already-persisted listing id 1. -/
def sampleListingsDb : ListingsDb :=
  { listings := [newListingRow sampleUpsertA 1 100], priceChanges := [], nextId := 2 }

def emptyListingsDb : ListingsDb :=
  { listings := [], priceChanges := [], nextId := 1 }

def sampleTradeRent : RealTradeUpsert :=
  { propertyType := "apt", rentType := "jeonse", regionCode := "11110"
    dong := "아현동", aptName := "마포타워", deposit := 50000, monthlyRent := 0
    areaM2 := some 84, floor := 3, contractYear := 2026, contractMonth := 1
    contractDay := 15, tradeCategory := "rent" }

/-- Same official transaction, differing only in trade_category. -/
def sampleTradeSale : RealTradeUpsert :=
  { sampleTradeRent with tradeCategory := "sale" }

/-- A trades store already holding the rent-category row. -/
def sampleTradesDb : RealTradesDb :=
  { trades := [newRealTradeRow sampleTradeRent 1], nextId := 2 }

/-- A Zigbang environment whose search endpoint yields one raw item that
fails to parse (no source id, no detail payload): a schema-mismatch run. -/
def zbMismatchEnv : ZigbangEnv Nat Unit :=
  { fetchAptItemCatalogs := fun _ => []
    searchByRegionName := fun _ _ _ => [7]
    fetchItemDetails := fun _ => none
    detailListingCandidates := fun _ => []
    extractSourceId := fun _ => ""
    tranType := fun _ => ""
    parseAptCatalogItem := fun _ _ => none
    parseItem := fun _ _ => none
    topLevelKeys := fun _ => ["unexpected"]
    sourceKeys := fun _ => none }

/-- A sample parsed listing keyed by a source id, for the healthy-run
environment. -/
def zbParsedRow (sid : String) : ListingUpsert :=
  { sampleUpsertA with sourceId := sid }

/-- A Zigbang environment whose search endpoint yields items 1, 2 and 1
again: every item parses and the run-scoped dedup drops the repeat. -/
def zbOkEnv : ZigbangEnv Nat Unit :=
  { fetchAptItemCatalogs := fun _ => []
    searchByRegionName := fun _ _ rt => if rt = "전세" then [1, 2, 1] else []
    fetchItemDetails := fun _ => none
    detailListingCandidates := fun _ => []
    extractSourceId := fun i => toString i
    tranType := fun _ => ""
    parseAptCatalogItem := fun _ _ => none
    parseItem := fun i _ => some (zbParsedRow (toString i))
    topLevelKeys := fun _ => ["deposit"]
    sourceKeys := fun _ => none }

/-! ## Lemmas about the Zigbang retry loop -/

theorem retryGo_nil {α : Type} (cfg : RetryConfig) (attempt consec : Nat)
    (m : RetryMetrics) :
    requestJsonWithRetryGo (α := α) cfg [] attempt consec m = ⟨none, 0, m⟩ :=
  rfl

theorem retryGo_ok {α : Type} (cfg : RetryConfig) (p : Option α)
    (rest : List (HttpOutcome α)) (attempt consec : Nat) (m : RetryMetrics) :
    requestJsonWithRetryGo cfg (HttpOutcome.ok p :: rest) attempt consec m =
      ⟨p, 1, m⟩ :=
  rfl

theorem retryGo_otherError {α : Type} (cfg : RetryConfig)
    (rest : List (HttpOutcome α)) (attempt consec : Nat) (m : RetryMetrics) :
    requestJsonWithRetryGo cfg (HttpOutcome.otherError :: rest)
      attempt consec m = ⟨none, 1, m⟩ :=
  rfl

theorem retryGo_nonretryable {α : Type} (cfg : RetryConfig) (code : Nat)
    (rest : List (HttpOutcome α)) (attempt consec : Nat) (m : RetryMetrics)
    (hc : code ∉ RETRYABLE_HTTP_STATUS_CODES) :
    requestJsonWithRetryGo cfg (HttpOutcome.statusError code :: rest)
      attempt consec m = ⟨none, 1, m⟩ := by
  simp [requestJsonWithRetryGo, hc]

theorem retryGo_exhausted {α : Type} (cfg : RetryConfig) (code : Nat)
    (rest : List (HttpOutcome α)) (attempt consec : Nat) (m : RetryMetrics)
    (hc : code ∈ RETRYABLE_HTTP_STATUS_CODES)
    (hex : cfg.maxRetries ≤ attempt) :
    requestJsonWithRetryGo cfg (HttpOutcome.statusError code :: rest)
      attempt consec m = ⟨none, 1, ⟨m.retryCount + 1, m.cooldownCount⟩⟩ := by
  simp [requestJsonWithRetryGo, hc, hex]

theorem retryGo_step_cooldown {α : Type} (cfg : RetryConfig) (code : Nat)
    (rest : List (HttpOutcome α)) (attempt consec : Nat) (m : RetryMetrics)
    (hc : code ∈ RETRYABLE_HTTP_STATUS_CODES)
    (hex : ¬ cfg.maxRetries ≤ attempt)
    (hth : cfg.cooldownThreshold ≤ (if code = 429 then consec + 1 else 0)) :
    (requestJsonWithRetryGo cfg (HttpOutcome.statusError code :: rest)
        attempt consec m).payload =
      (requestJsonWithRetryGo cfg rest (attempt + 1) 0
        ⟨m.retryCount + 1, m.cooldownCount + 1⟩).payload ∧
    (requestJsonWithRetryGo cfg (HttpOutcome.statusError code :: rest)
        attempt consec m).attempts =
      (requestJsonWithRetryGo cfg rest (attempt + 1) 0
        ⟨m.retryCount + 1, m.cooldownCount + 1⟩).attempts + 1 ∧
    (requestJsonWithRetryGo cfg (HttpOutcome.statusError code :: rest)
        attempt consec m).metrics =
      (requestJsonWithRetryGo cfg rest (attempt + 1) 0
        ⟨m.retryCount + 1, m.cooldownCount + 1⟩).metrics := by
  refine ⟨?_, ?_, ?_⟩ <;> simp [requestJsonWithRetryGo, hc, hex, hth]

theorem retryGo_step_continue {α : Type} (cfg : RetryConfig) (code : Nat)
    (rest : List (HttpOutcome α)) (attempt consec : Nat) (m : RetryMetrics)
    (hc : code ∈ RETRYABLE_HTTP_STATUS_CODES)
    (hex : ¬ cfg.maxRetries ≤ attempt)
    (hth : ¬ cfg.cooldownThreshold ≤ (if code = 429 then consec + 1 else 0)) :
    (requestJsonWithRetryGo cfg (HttpOutcome.statusError code :: rest)
        attempt consec m).payload =
      (requestJsonWithRetryGo cfg rest (attempt + 1)
        (if code = 429 then consec + 1 else 0)
        ⟨m.retryCount + 1, m.cooldownCount⟩).payload ∧
    (requestJsonWithRetryGo cfg (HttpOutcome.statusError code :: rest)
        attempt consec m).attempts =
      (requestJsonWithRetryGo cfg rest (attempt + 1)
        (if code = 429 then consec + 1 else 0)
        ⟨m.retryCount + 1, m.cooldownCount⟩).attempts + 1 ∧
    (requestJsonWithRetryGo cfg (HttpOutcome.statusError code :: rest)
        attempt consec m).metrics =
      (requestJsonWithRetryGo cfg rest (attempt + 1)
        (if code = 429 then consec + 1 else 0)
        ⟨m.retryCount + 1, m.cooldownCount⟩).metrics := by
  refine ⟨?_, ?_, ?_⟩ <;> simp [requestJsonWithRetryGo, hc, hex, hth]

theorem retryGo_attempts_le {α : Type} (cfg : RetryConfig)
    (responses : List (HttpOutcome α)) (attempt consec : Nat)
    (m : RetryMetrics) (h : attempt ≤ cfg.maxRetries) :
    (requestJsonWithRetryGo cfg responses attempt consec m).attempts ≤
      cfg.maxRetries + 1 - attempt := by
  induction responses generalizing attempt consec m with
  | nil => rw [retryGo_nil]; simp
  | cons r rest ih =>
    cases r with
    | ok p => rw [retryGo_ok]; simp; omega
    | otherError => rw [retryGo_otherError]; simp; omega
    | statusError code =>
      by_cases hc : code ∈ RETRYABLE_HTTP_STATUS_CODES
      · by_cases hex : cfg.maxRetries ≤ attempt
        · rw [retryGo_exhausted cfg code rest attempt consec m hc hex]
          simp; omega
        · by_cases hth :
            cfg.cooldownThreshold ≤ (if code = 429 then consec + 1 else 0)
          · rw [(retryGo_step_cooldown cfg code rest attempt consec m hc hex
              hth).2.1]
            have := ih (attempt + 1) 0
              ⟨m.retryCount + 1, m.cooldownCount + 1⟩ (by omega)
            omega
          · rw [(retryGo_step_continue cfg code rest attempt consec m hc hex
              hth).2.1]
            have := ih (attempt + 1) (if code = 429 then consec + 1 else 0)
              ⟨m.retryCount + 1, m.cooldownCount⟩ (by omega)
            omega
      · rw [retryGo_nonretryable cfg code rest attempt consec m hc]
        simp; omega

theorem retryGo_exhausts_on_retryable {α : Type} (cfg : RetryConfig)
    (responses : List (HttpOutcome α)) (attempt consec : Nat)
    (m : RetryMetrics)
    (hall : ∀ r ∈ responses, ∃ c ∈ RETRYABLE_HTTP_STATUS_CODES,
      r = HttpOutcome.statusError c)
    (hlen : responses.length = cfg.maxRetries + 1 - attempt)
    (h : attempt ≤ cfg.maxRetries) :
    (requestJsonWithRetryGo cfg responses attempt consec m).payload = none ∧
    (requestJsonWithRetryGo cfg responses attempt consec m).attempts =
      responses.length ∧
    (requestJsonWithRetryGo cfg responses attempt consec m).metrics.retryCount =
      m.retryCount + responses.length := by
  induction responses generalizing attempt consec m with
  | nil => rw [retryGo_nil]; simp
  | cons r rest ih =>
    obtain ⟨c, hc, rfl⟩ := hall r (List.mem_cons_self r rest)
    have hall2 : ∀ r ∈ rest, ∃ c ∈ RETRYABLE_HTTP_STATUS_CODES,
        r = HttpOutcome.statusError c :=
      fun r hr => hall r (List.mem_cons_of_mem _ hr)
    by_cases hex : cfg.maxRetries ≤ attempt
    · have hrest : rest = [] := by
        have : rest.length = 0 := by simp at hlen; omega
        exact List.eq_nil_of_length_eq_zero this
      subst hrest
      rw [retryGo_exhausted cfg c [] attempt consec m hc hex]
      simp
    · have hlen2 : rest.length = cfg.maxRetries + 1 - (attempt + 1) := by
        simp at hlen; omega
      by_cases hth :
          cfg.cooldownThreshold ≤ (if c = 429 then consec + 1 else 0)
      · obtain ⟨hp, ha, hm⟩ :=
          retryGo_step_cooldown cfg c rest attempt consec m hc hex hth
        have := ih (attempt + 1) 0 ⟨m.retryCount + 1, m.cooldownCount + 1⟩
          hall2 hlen2 (by omega)
        rw [hp, ha, hm]
        simp only [List.length_cons]
        exact ⟨this.1, by omega, by have h3 := this.2.2; simp at h3 ⊢; omega⟩
      · obtain ⟨hp, ha, hm⟩ :=
          retryGo_step_continue cfg c rest attempt consec m hc hex hth
        have := ih (attempt + 1) (if c = 429 then consec + 1 else 0)
          ⟨m.retryCount + 1, m.cooldownCount⟩ hall2 hlen2 (by omega)
        rw [hp, ha, hm]
        simp only [List.length_cons]
        exact ⟨this.1, by omega, by have h3 := this.2.2; simp at h3 ⊢; omega⟩

theorem retryGo_retryable_then_success {α : Type} (cfg : RetryConfig)
    (rs : List (HttpOutcome α)) (v : α) (attempt consec : Nat)
    (m : RetryMetrics)
    (hall : ∀ r ∈ rs, ∃ c ∈ RETRYABLE_HTTP_STATUS_CODES,
      r = HttpOutcome.statusError c)
    (hlen : attempt + rs.length ≤ cfg.maxRetries) :
    (requestJsonWithRetryGo cfg (rs ++ [HttpOutcome.ok (some v)])
      attempt consec m).payload = some v := by
  induction rs generalizing attempt consec m with
  | nil => rw [List.nil_append, retryGo_ok]
  | cons r rest ih =>
    obtain ⟨c, hc, rfl⟩ := hall r (List.mem_cons_self r rest)
    have hall2 : ∀ r ∈ rest, ∃ c ∈ RETRYABLE_HTTP_STATUS_CODES,
        r = HttpOutcome.statusError c :=
      fun r hr => hall r (List.mem_cons_of_mem _ hr)
    have hex : ¬ cfg.maxRetries ≤ attempt := by simp at hlen; omega
    rw [List.cons_append]
    by_cases hth : cfg.cooldownThreshold ≤ (if c = 429 then consec + 1 else 0)
    · rw [(retryGo_step_cooldown cfg c _ attempt consec m hc hex hth).1]
      exact ih (attempt + 1) 0 _ hall2 (by simp at hlen ⊢; omega)
    · rw [(retryGo_step_continue cfg c _ attempt consec m hc hex hth).1]
      exact ih (attempt + 1) _ _ hall2 (by simp at hlen ⊢; omega)

theorem retryGo_429_cooldown_formula {α : Type} (cfg : RetryConfig)
    (k attempt consec : Nat) (m : RetryMetrics)
    (h : attempt ≤ cfg.maxRetries) (hcs : consec < cfg.cooldownThreshold) :
    (requestJsonWithRetryGo cfg
        (List.replicate k (HttpOutcome.statusError 429) : List (HttpOutcome α))
        attempt consec m).metrics.cooldownCount =
      m.cooldownCount +
        (min k (cfg.maxRetries - attempt) + consec) / cfg.cooldownThreshold := by
  induction k generalizing attempt consec m with
  | zero =>
    rw [List.replicate_zero, retryGo_nil]
    simp [Nat.div_eq_of_lt hcs]
  | succ k ih =>
    have h429 : (429 : Nat) ∈ RETRYABLE_HTTP_STATUS_CODES := by decide
    rw [List.replicate_succ]
    by_cases hex : cfg.maxRetries ≤ attempt
    · have hae : attempt = cfg.maxRetries := by omega
      rw [retryGo_exhausted cfg 429 _ attempt consec m h429 hex]
      subst hae
      simp [Nat.div_eq_of_lt hcs]
    · by_cases hth : cfg.cooldownThreshold ≤ consec + 1
      · have hth2 : cfg.cooldownThreshold ≤
            (if (429 : Nat) = 429 then consec + 1 else 0) := by simpa using hth
        rw [(retryGo_step_cooldown cfg 429 _ attempt consec m h429 hex hth2).2.2]
        rw [ih (attempt + 1) 0 ⟨m.retryCount + 1, m.cooldownCount + 1⟩
          (by omega) (by omega)]
        have ht : 0 < cfg.cooldownThreshold := by omega
        have hmm : min (k + 1) (cfg.maxRetries - attempt) + consec =
            min k (cfg.maxRetries - (attempt + 1)) + 0 +
              cfg.cooldownThreshold := by omega
        rw [hmm, Nat.add_div_right _ ht]
        simp
        omega
      · have hth2 : ¬ cfg.cooldownThreshold ≤
            (if (429 : Nat) = 429 then consec + 1 else 0) := by simpa using hth
        rw [(retryGo_step_continue cfg 429 _ attempt consec m h429 hex hth2).2.2]
        simp only [reduceIte]
        rw [ih (attempt + 1) (consec + 1)
          ⟨m.retryCount + 1, m.cooldownCount⟩ (by omega) (by omega)]
        have heq : min k (cfg.maxRetries - (attempt + 1)) + (consec + 1) =
            min (k + 1) (cfg.maxRetries - attempt) + consec := by omega
        rw [heq]

/-- Lemma: a full run of only-429 responses in the naver loop returns []. -/
theorem naverGo_429_returns_empty {β : Type} (maxRetries : Nat) (k attempt : Nat) :
    requestArticlesGo (β := β) maxRetries
      (List.replicate k (NaverOutcome.statusError 429)) attempt = .ok [] := by
  induction k generalizing attempt with
  | zero => simp [requestArticlesGo]
  | succ k ih =>
    simp only [List.replicate_succ, requestArticlesGo]
    split
    · rfl
    · simpa using ih (attempt + 1)

/-! ## Claims C5, C6, C7: the fetch layers -/

/-- C5: _request_json_with_retry issues at most max_retries + 1 HTTP
attempts; a run of only retryable statuses filling the whole budget returns
None after exactly max_retries + 1 attempts and increments the retry-count
metric once per attempt; a first non-retryable status returns None
immediately after exactly one attempt (so a single 404 means one HTTP
call). -/
theorem zigbang_retry_attempt_budget {α : Type} (cfg : RetryConfig)
    (responses : List (HttpOutcome α)) :
    ((requestJsonWithRetry cfg responses).attempts ≤ cfg.maxRetries + 1)
    ∧ ((∀ r ∈ responses, ∃ c ∈ RETRYABLE_HTTP_STATUS_CODES,
          r = HttpOutcome.statusError c) →
        responses.length = cfg.maxRetries + 1 →
        (requestJsonWithRetry cfg responses).payload = none ∧
        (requestJsonWithRetry cfg responses).attempts = cfg.maxRetries + 1 ∧
        (requestJsonWithRetry cfg responses).metrics.retryCount =
          cfg.maxRetries + 1)
    ∧ (∀ (code : Nat) (rest : List (HttpOutcome α)),
        code ∉ RETRYABLE_HTTP_STATUS_CODES →
        (requestJsonWithRetry cfg
          (HttpOutcome.statusError code :: rest)).payload = none ∧
        (requestJsonWithRetry cfg
          (HttpOutcome.statusError code :: rest)).attempts = 1) := by
  refine ⟨?_, ?_, ?_⟩
  · have := retryGo_attempts_le cfg responses 0 0 ⟨0, 0⟩ (Nat.zero_le _)
    unfold requestJsonWithRetry
    omega
  · intro hall hlen
    have := retryGo_exhausts_on_retryable cfg responses 0 0 ⟨0, 0⟩ hall
      (by omega) (Nat.zero_le _)
    unfold requestJsonWithRetry
    refine ⟨this.1, by omega, ?_⟩
    have h3 := this.2.2
    simp at h3
    omega
  · intro code rest hc
    unfold requestJsonWithRetry
    rw [retryGo_nonretryable cfg code rest 0 0 ⟨0, 0⟩ hc]
    exact ⟨rfl, rfl⟩

/-- C5 witness: with max_retries = 2, three straight 429s exhaust the budget
(3 attempts, payload None, retry metric 3), and a single 404 takes exactly
one attempt. -/
theorem zigbang_retry_attempt_budget_witness :
    (requestJsonWithRetry (α := Unit) ⟨2, 3⟩
      (List.replicate 3 (HttpOutcome.statusError 429))).payload = none
    ∧ (requestJsonWithRetry (α := Unit) ⟨2, 3⟩
      (List.replicate 3 (HttpOutcome.statusError 429))).attempts = 3
    ∧ (requestJsonWithRetry (α := Unit) ⟨2, 3⟩
      (List.replicate 3 (HttpOutcome.statusError 429))).metrics.retryCount = 3
    ∧ (requestJsonWithRetry (α := Unit) ⟨2, 3⟩
      [HttpOutcome.statusError 404]).attempts = 1 := by
  have h := zigbang_retry_attempt_budget (α := Unit) ⟨2, 3⟩
    (List.replicate 3 (HttpOutcome.statusError 429))
  have h404 := zigbang_retry_attempt_budget (α := Unit) ⟨2, 3⟩
    ([] : List (HttpOutcome Unit))
  exact ⟨(h.2.1 (by decide) (by decide)).1,
    (h.2.1 (by decide) (by decide)).2.1,
    (h.2.1 (by decide) (by decide)).2.2,
    (h404.2.2 404 [] (by decide)).2⟩

/-- C7 counterexample: with max_retries = 2 and cooldown_threshold = 3, a
request observing k = 3 consecutive 429s triggers zero cooldowns, not
floor(3 / 3) = 1: the exhausted final attempt returns before the consecutive
counter is updated. -/
theorem zigbang_cooldown_floor_counterexample :
    (requestJsonWithRetry (α := Unit) ⟨2, 3⟩
      (List.replicate 3 (HttpOutcome.statusError 429))).metrics.cooldownCount
      ≠ 3 / 3 := by
  decide

/-- C7 (amended): the consecutive-429 counter is request-scoped (a local of
each _request_json_with_retry call); when it reaches cooldown_threshold the
loop sleeps the cooldown once, bumps the cooldown metric once and resets the
counter to zero; a non-429 retryable status resets it without a cooldown;
and k consecutive 429 responses within one request trigger exactly
min(k, max_retries) / cooldown_threshold cooldowns, because the exhausted
final attempt returns before updating the counter. -/
theorem zigbang_cooldown_escalation {α : Type} (cfg : RetryConfig)
    (hth : 1 ≤ cfg.cooldownThreshold) :
    (∀ k : Nat,
      (requestJsonWithRetry (α := α) cfg
        (List.replicate k (HttpOutcome.statusError 429))).metrics.cooldownCount
        = min k cfg.maxRetries / cfg.cooldownThreshold)
    ∧ (∀ (rest : List (HttpOutcome α)) (attempt consec : Nat)
        (m : RetryMetrics), attempt < cfg.maxRetries →
        consec + 1 = cfg.cooldownThreshold →
        (requestJsonWithRetryGo cfg (HttpOutcome.statusError 429 :: rest)
            attempt consec m).metrics =
          (requestJsonWithRetryGo cfg rest (attempt + 1) 0
            ⟨m.retryCount + 1, m.cooldownCount + 1⟩).metrics)
    ∧ (∀ (code : Nat) (rest : List (HttpOutcome α)) (attempt consec : Nat)
        (m : RetryMetrics), code ∈ RETRYABLE_HTTP_STATUS_CODES → code ≠ 429 →
        attempt < cfg.maxRetries →
        (requestJsonWithRetryGo cfg (HttpOutcome.statusError code :: rest)
            attempt consec m).metrics =
          (requestJsonWithRetryGo cfg rest (attempt + 1) 0
            ⟨m.retryCount + 1, m.cooldownCount⟩).metrics) := by
  refine ⟨?_, ?_, ?_⟩
  · intro k
    have := retryGo_429_cooldown_formula (α := α) cfg k 0 0 ⟨0, 0⟩
      (Nat.zero_le _) (by omega)
    unfold requestJsonWithRetry
    simpa using this
  · intro rest attempt consec m hlt hcs
    have h429 : (429 : Nat) ∈ RETRYABLE_HTTP_STATUS_CODES := by decide
    have hth2 : cfg.cooldownThreshold ≤
        (if (429 : Nat) = 429 then consec + 1 else 0) := by simp; omega
    exact (retryGo_step_cooldown cfg 429 rest attempt consec m h429
      (by omega) hth2).2.2
  · intro code rest attempt consec m hc hne hlt
    have hth2 : ¬ cfg.cooldownThreshold ≤
        (if code = 429 then consec + 1 else 0) := by simp [hne]; omega
    have := (retryGo_step_continue cfg code rest attempt consec m hc
      (by omega) hth2).2.2
    simpa [hne] using this

/-- C7 witness: with the default max_retries = 4 and cooldown_threshold = 3,
five consecutive 429s in one request trigger exactly one cooldown. -/
theorem zigbang_cooldown_escalation_witness :
    (requestJsonWithRetry (α := Unit) ⟨4, 3⟩
      (List.replicate 5 (HttpOutcome.statusError 429))).metrics.cooldownCount
      = 1 := by
  have h := (zigbang_cooldown_escalation (α := Unit) ⟨4, 3⟩ (by decide)).1 5
  simpa using h

/-- C6 counterexample: NaverCrawler._request_articles does not swallow a 5xx
status: a single 500 response makes it re-raise the HTTPStatusError instead
of returning a list. -/
theorem naver_5xx_propagates_counterexample :
    requestArticles (β := Unit) 3 [NaverOutcome.statusError 500] =
      Except.error (NaverFetchRaise.httpStatus 500) := rfl

/-- C6 (amended): the Zigbang fetch layer retries every retryable status
(429/500/502/503/504) and surfaces failure only as None — a retryable run
within budget followed by a JSON response yields that payload.
NaverCrawler._request_articles retries only 429 (any number of 429s yields
the empty list, never an exception), while a non-429 error status is
re-raised out of _request_articles as an HTTPStatusError — NaverCrawler.run
catches it and records it in errors. -/
theorem per_source_fetch_error_contract {α β : Type} (cfg : RetryConfig)
    (maxRetries : Nat) :
    (∀ (rs : List (HttpOutcome α)) (v : α),
      (∀ r ∈ rs, ∃ c ∈ RETRYABLE_HTTP_STATUS_CODES,
        r = HttpOutcome.statusError c) →
      rs.length ≤ cfg.maxRetries →
      (requestJsonWithRetry cfg (rs ++ [HttpOutcome.ok (some v)])).payload =
        some v)
    ∧ (∀ k : Nat,
        requestArticles (β := β) maxRetries
          (List.replicate k (NaverOutcome.statusError 429)) = .ok [])
    ∧ (∀ (code : Nat) (rest : List (NaverOutcome β)), code ≠ 429 →
        1 ≤ maxRetries →
        requestArticles maxRetries (NaverOutcome.statusError code :: rest) =
          .error (.httpStatus code)) := by
  refine ⟨?_, ?_, ?_⟩
  · intro rs v hall hlen
    exact retryGo_retryable_then_success cfg rs v 0 0 ⟨0, 0⟩ hall (by omega)
  · intro k
    exact naverGo_429_returns_empty maxRetries k 0
  · intro code rest hne hm
    have : ¬ maxRetries ≤ 0 := by omega
    simp [requestArticles, requestArticlesGo, this, hne]

/-- C6 witness: a 429 then a 200 yields the payload through the Zigbang
layer, and a single 500 raises out of the naver fetch loop. -/
theorem per_source_fetch_error_contract_witness :
    (requestJsonWithRetry (α := Nat) ⟨4, 3⟩
      [HttpOutcome.statusError 429, HttpOutcome.ok (some 42)]).payload =
        some 42
    ∧ requestArticles (β := Unit) 3 [NaverOutcome.statusError 500] =
        Except.error (NaverFetchRaise.httpStatus 500) := by
  have h := per_source_fetch_error_contract (α := Nat) (β := Unit) ⟨4, 3⟩ 3
  exact ⟨h.1 [HttpOutcome.statusError 429] 42 (by decide) (by decide),
    h.2.2 500 [] (by decide) (by decide)⟩

/-! ## Claim C9: the dedup guard -/

theorem acquireMemoryLock_succeeds_iff (locks : MemoryLocks) (key : String)
    (ttl : Int) (now : ℚ) :
    (acquireMemoryLock locks key ttl now).1 = true ↔
      ∀ e : ℚ, (key, e) ∈ locks → e ≤ now := by
  by_cases h : (locks.filter fun kv => !decide (kv.2 ≤ now)).any
      (fun kv => kv.1 == key)
  · simp only [acquireMemoryLock, h, if_true]
    constructor
    · intro hfalse
      exact absurd hfalse (by simp)
    · intro hall
      obtain ⟨kv, hmem, hkey⟩ := List.any_eq_true.mp h
      obtain ⟨hin, hkeep⟩ := List.mem_filter.mp hmem
      have hkv1 : kv.1 = key := by simpa using hkey
      have hgt : ¬ kv.2 ≤ now := by simpa using hkeep
      have : (key, kv.2) ∈ locks := by
        have : kv = (key, kv.2) := by
          cases kv; simp at hkv1 ⊢; exact hkv1
        rw [← this]; exact hin
      exact absurd (hall kv.2 this) hgt
  · simp only [acquireMemoryLock, h, if_false]
    constructor
    · intro _ e hmem
      by_contra hgt
      have hfil : (key, e) ∈ locks.filter fun kv => !decide (kv.2 ≤ now) :=
        List.mem_filter.mpr ⟨hmem, by simpa using hgt⟩
      have : (locks.filter fun kv => !decide (kv.2 ≤ now)).any
          (fun kv => kv.1 == key) = true :=
        List.any_eq_true.mpr ⟨(key, e), hfil, by simp⟩
      exact h this
    · intro _
      rfl

theorem acquireMemoryLock_state_of_success (locks : MemoryLocks)
    (key : String) (ttl : Int) (now : ℚ)
    (h : (acquireMemoryLock locks key ttl now).1 = true) :
    (acquireMemoryLock locks key ttl now).2 =
      (locks.filter fun kv => !decide (kv.2 ≤ now)) ++
        [(key, now + (ttl : ℚ))] := by
  by_cases hany : (locks.filter fun kv => !decide (kv.2 ≤ now)).any
      (fun kv => kv.1 == key)
  · simp [acquireMemoryLock, hany] at h
  · simp [acquireMemoryLock, hany]

/-- C9: an acquire succeeds iff no unexpired lock for the key exists; hence
before release or expiry a second acquire of the same key fails, and after a
release or after the TTL has elapsed it succeeds again. -/
theorem dedup_lock_mutual_exclusion :
    (∀ (locks : MemoryLocks) (key : String) (ttl : Int) (now : ℚ), 0 < ttl →
      ((acquireMemoryLock locks key ttl now).1 = true ↔
        ∀ e : ℚ, (key, e) ∈ locks → e ≤ now))
    ∧ (∀ (locks : MemoryLocks) (key : String) (ttl : Int) (now1 now2 : ℚ),
        0 < ttl → (∀ e : ℚ, (key, e) ∈ locks → e ≤ now1) →
        (acquireMemoryLock locks key ttl now1).1 = true
        ∧ (now2 < now1 + (ttl : ℚ) →
            (acquireMemoryLock (acquireMemoryLock locks key ttl now1).2
              key ttl now2).1 = false)
        ∧ (acquireMemoryLock
            (releaseMemoryLock (acquireMemoryLock locks key ttl now1).2 key)
            key ttl now2).1 = true
        ∧ (now1 + (ttl : ℚ) ≤ now2 →
            (acquireMemoryLock (acquireMemoryLock locks key ttl now1).2
              key ttl now2).1 = true)) := by
  constructor
  · intro locks key ttl now _
    exact acquireMemoryLock_succeeds_iff locks key ttl now
  · intro locks key ttl now1 now2 _ hnone
    have h1 : (acquireMemoryLock locks key ttl now1).1 = true :=
      (acquireMemoryLock_succeeds_iff locks key ttl now1).mpr hnone
    have hstate := acquireMemoryLock_state_of_success locks key ttl now1 h1
    have hmemiff : ∀ e : ℚ,
        (key, e) ∈ (acquireMemoryLock locks key ttl now1).2 →
          e = now1 + (ttl : ℚ) := by
      intro e hmem
      rw [hstate] at hmem
      rcases List.mem_append.mp hmem with hleft | hright
      · obtain ⟨hin, hkeep⟩ := List.mem_filter.mp hleft
        have : e ≤ now1 := hnone e hin
        simp at hkeep
        exact absurd this (by linarith)
      · simpa using hright
    refine ⟨h1, ?_, ?_, ?_⟩
    · intro hlt
      cases h2 : (acquireMemoryLock (acquireMemoryLock locks key ttl now1).2
          key ttl now2).1 with
      | false => rfl
      | true =>
        have hall := (acquireMemoryLock_succeeds_iff _ key ttl now2).mp h2
        have hmem : (key, now1 + (ttl : ℚ)) ∈
            (acquireMemoryLock locks key ttl now1).2 := by
          rw [hstate]
          exact List.mem_append_right _ (by simp)
        have := hall (now1 + (ttl : ℚ)) hmem
        linarith
    · apply (acquireMemoryLock_succeeds_iff _ key ttl now2).mpr
      intro e hmem
      obtain ⟨_, hkeep⟩ := List.mem_filter.mp hmem
      simp at hkeep
    · intro hle
      apply (acquireMemoryLock_succeeds_iff _ key ttl now2).mpr
      intro e hmem
      rw [hmemiff e hmem]
      exact hle

/-- C9 witness: a fresh acquire succeeds, a second at t=1 (before the 600s
TTL) fails, an acquire after release succeeds, and an acquire at t=600
(TTL elapsed) succeeds. -/
theorem dedup_lock_mutual_exclusion_witness :
    (acquireMemoryLock [] "dedup:execution:crawl_zigbang:all" 600 0).1 = true
    ∧ (acquireMemoryLock
        (acquireMemoryLock [] "dedup:execution:crawl_zigbang:all" 600 0).2
        "dedup:execution:crawl_zigbang:all" 600 1).1 = false
    ∧ (acquireMemoryLock
        (releaseMemoryLock
          (acquireMemoryLock [] "dedup:execution:crawl_zigbang:all" 600 0).2
          "dedup:execution:crawl_zigbang:all")
        "dedup:execution:crawl_zigbang:all" 600 1).1 = true
    ∧ (acquireMemoryLock
        (acquireMemoryLock [] "dedup:execution:crawl_zigbang:all" 600 0).2
        "dedup:execution:crawl_zigbang:all" 600 600).1 = true := by
  have h1 := dedup_lock_mutual_exclusion.2 []
    "dedup:execution:crawl_zigbang:all" 600 0 1 (by norm_num) (by simp)
  have h2 := dedup_lock_mutual_exclusion.2 []
    "dedup:execution:crawl_zigbang:all" 600 0 600 (by norm_num) (by simp)
  exact ⟨h1.1, h1.2.1 (by norm_num), h1.2.2.1, h2.2.2.2 (by norm_num)⟩

/-! ## Claim C8: the staleness reaper -/

/-- C8: deactivate_stale_listings flips is_active to false for exactly the
listings of the given source that are active and older than
now - threshold_hours, returns the number of such listings, and leaves every
other listing — and everything else in the store — entirely unchanged
(position by position). -/
theorem deactivate_stale_exact (db : ListingsDb) (source : String)
    (thresholdHours : Int) (now : Int) :
    ((deactivateStaleListings db source thresholdHours now).1 =
      (db.listings.filter (fun l =>
        decide (staleForReaper source (now - thresholdHours * 3600) l))).length)
    ∧ (deactivateStaleListings db source thresholdHours now).2.priceChanges =
        db.priceChanges
    ∧ (deactivateStaleListings db source thresholdHours now).2.nextId =
        db.nextId
    ∧ (deactivateStaleListings db source thresholdHours now).2.listings.length =
        db.listings.length
    ∧ ∀ i : Nat,
        (deactivateStaleListings db source thresholdHours now).2.listings[i]? =
          (db.listings[i]?).map (fun l =>
            if staleForReaper source (now - thresholdHours * 3600) l then
              { l with isActive := false }
            else l) := by
  refine ⟨rfl, rfl, rfl, by simp [deactivateStaleListings], ?_⟩
  intro i
  simp [deactivateStaleListings]

/-! ## Claim C4: official-transaction dedup -/

theorem insertTradeStep_fold_appends (dup : RealTradeRow → RealTradeUpsert → Bool)
    (rows : List RealTradeUpsert) (acc : Nat × RealTradesDb) :
    ∃ suffix, (rows.foldl (insertTradeStep dup) acc).2.trades =
      acc.2.trades ++ suffix := by
  induction rows generalizing acc with
  | nil => exact ⟨[], by simp⟩
  | cons r rest ih =>
    rw [List.foldl_cons]
    by_cases h : acc.2.trades.any (fun l => dup l r)
    · have hstep : insertTradeStep dup acc r = acc := by
        simp [insertTradeStep, h]
      rw [hstep]
      exact ih acc
    · have hstep : insertTradeStep dup acc r =
          (acc.1 + 1,
            { trades := acc.2.trades ++ [newRealTradeRow r acc.2.nextId]
              nextId := acc.2.nextId + 1 }) := by
        simp [insertTradeStep, h]
      rw [hstep]
      obtain ⟨s, hs⟩ := ih (acc.1 + 1,
        { trades := acc.2.trades ++ [newRealTradeRow r acc.2.nextId]
          nextId := acc.2.nextId + 1 })
      exact ⟨newRealTradeRow r acc.2.nextId :: s, by
        rw [hs]; simp⟩

/-- C4 (code bug): the model's unique constraint uq_real_trades_identity and
the PostgreSQL ON CONFLICT path deduplicate on the full 11-column identity
including trade_category, but the fallback existence check compares only ten
columns and omits trade_category.  At the failing input — a stored
rent-category row and an incoming row identical except
trade_category="sale" — the fallback skips the row (0 inserted, store
unchanged) while the PostgreSQL path inserts it (1 inserted).  On both paths
existing rows are never updated: the pre-existing prefix of the table is
untouched by any call. -/
theorem real_trade_dedup_divergence :
    ((upsertRealTrades SqlDialect.fallback sampleTradesDb
        [sampleTradeSale]).1 = 0
      ∧ (upsertRealTrades SqlDialect.fallback sampleTradesDb
        [sampleTradeSale]).2 = sampleTradesDb
      ∧ (upsertRealTrades SqlDialect.postgresql sampleTradesDb
        [sampleTradeSale]).1 = 1
      ∧ (upsertRealTrades SqlDialect.postgresql sampleTradesDb
        [sampleTradeSale]).2.trades =
          sampleTradesDb.trades ++ [newRealTradeRow sampleTradeSale 2])
    ∧ ∀ (dialect : SqlDialect) (db : RealTradesDb)
        (rows : List RealTradeUpsert),
        (upsertRealTrades dialect db rows).2.trades.take db.trades.length =
          db.trades := by
  constructor
  · exact ⟨by decide, by decide, by decide, by decide⟩
  · intro dialect db rows
    by_cases hempty : rows.isEmpty
    · simp [upsertRealTrades, hempty, List.take_length]
    · cases dialect with
      | postgresql =>
        obtain ⟨s, hs⟩ := insertTradeStep_fold_appends pgTradeConflict rows (0, db)
        simp only [upsertRealTrades, if_neg hempty]
        rw [hs]
        exact List.take_left _ _
      | fallback =>
        obtain ⟨s, hs⟩ := insertTradeStep_fold_appends fallbackTradeDup rows (0, db)
        simp only [upsertRealTrades, if_neg hempty]
        rw [hs]
        exact List.take_left _ _

/-! ## Lemmas for the reconciliation engine (claims C2, C3) -/

theorem rowKey_applyListingUpdate (l : ListingRow) (r : ListingUpsert)
    (now : Int) : rowKey (applyListingUpdate l r now) = rowKey l := rfl

theorem id_applyListingUpdate (l : ListingRow) (r : ListingUpsert)
    (now : Int) : (applyListingUpdate l r now).id = l.id := rfl

theorem rowKey_newListingRow (r : ListingUpsert) (id : Nat) (now : Int) :
    rowKey (newListingRow r id now) = listingKey r := rfl

theorem find?_eq_some_of_nodup_keys {γ δ : Type} [DecidableEq δ] (f : γ → δ)
    (xs : List γ) (x : γ) (k : δ) (hnd : (xs.map f).Nodup) (hx : x ∈ xs)
    (hk : f x = k) : xs.find? (fun y => decide (f y = k)) = some x := by
  induction xs with
  | nil => cases hx
  | cons a rest ih =>
    simp only [List.map_cons, List.nodup_cons] at hnd
    rcases List.mem_cons.mp hx with rfl | hmem
    · simp [List.find?_cons, hk]
    · have hne : ¬ (f a = k) := by
        intro h
        exact hnd.1 (by rw [h, ← hk]; exact List.mem_map_of_mem f hmem)
      have hda : (decide (f a = k)) = false := by simp [hne]
      simp only [List.find?_cons, hda, cond_false]
      exact ih hnd.2 hmem

theorem filter_key_eq_singleton {γ δ : Type} [DecidableEq δ] (f : γ → δ)
    (xs : List γ) (x : γ) (k : δ) (hnd : (xs.map f).Nodup) (hx : x ∈ xs)
    (hk : f x = k) : xs.filter (fun y => decide (f y = k)) = [x] := by
  induction xs with
  | nil => cases hx
  | cons a rest ih =>
    simp only [List.map_cons, List.nodup_cons] at hnd
    rcases List.mem_cons.mp hx with rfl | hmem
    · have hrest : ∀ y ∈ rest, ¬ (f y = k) := by
        intro y hy h
        apply hnd.1
        rw [hk, ← h]
        exact List.mem_map_of_mem f hy
      rw [List.filter_cons_of_pos (by simp [hk])]
      have : rest.filter (fun y => decide (f y = k)) = [] := by
        rw [List.filter_eq_nil_iff]
        intro y hy
        simp [hrest y hy]
      rw [this]
    · have hne : ¬ (f a = k) := by
        intro h
        exact hnd.1 (by rw [h, ← hk]; exact List.mem_map_of_mem f hmem)
      rw [List.filter_cons_of_neg (by simp [hne])]
      exact ih hnd.2 hmem

theorem find?_map_of_key_pres {γ : Type} (u : γ → γ) (g : γ → Bool)
    (hu : ∀ y, g (u y) = g y) (xs : List γ) :
    (xs.map u).find? g = (xs.find? g).map u := by
  induction xs with
  | nil => rfl
  | cons a rest ih =>
    simp only [List.map_cons, List.find?_cons, hu a]
    cases g a with
    | true => simp
    | false => simpa using ih

theorem filter_congr_mem {γ : Type} (l : List γ) (p q : γ → Bool)
    (h : ∀ x ∈ l, p x = q x) : l.filter p = l.filter q := by
  induction l with
  | nil => rfl
  | cons a rest ih =>
    have ha := h a (List.mem_cons_self a rest)
    have ihr := ih (fun x hx => h x (List.mem_cons_of_mem a hx))
    simp only [List.filter_cons, ha, ihr]

theorem filterMap_congr_mem {γ δ : Type} (l : List γ) (f g : γ → Option δ)
    (h : ∀ x ∈ l, f x = g x) : l.filterMap f = l.filterMap g := by
  induction l with
  | nil => rfl
  | cons a rest ih =>
    have ha := h a (List.mem_cons_self a rest)
    have ihr := ih (fun x hx => h x (List.mem_cons_of_mem a hx))
    simp only [List.filterMap_cons, ha, ihr]

theorem map_congr_mem {γ δ : Type} (l : List γ) (f g : γ → δ)
    (h : ∀ x ∈ l, f x = g x) : l.map f = l.map g := by
  induction l with
  | nil => rfl
  | cons a rest ih =>
    have ha := h a (List.mem_cons_self a rest)
    have ihr := ih (fun x hx => h x (List.mem_cons_of_mem a hx))
    simp only [List.map_cons, ha, ihr]

/-! ### The last-write-wins dedup of upsert_listings -/

theorem dedupStep_keys_nodup (acc : List ListingUpsert) (row : ListingUpsert)
    (h : (acc.map listingKey).Nodup) :
    ((dedupStep acc row).map listingKey).Nodup := by
  unfold dedupStep
  by_cases hc : acc.any (fun r => decide (listingKey r = listingKey row))
  · rw [if_pos hc]
    have : (acc.map (fun r =>
        if listingKey r = listingKey row then row else r)).map listingKey =
        acc.map listingKey := by
      rw [List.map_map]
      apply map_congr_mem
      intro x _
      by_cases hx : listingKey x = listingKey row
      · simp [hx]
      · simp [hx]
    rw [this]
    exact h
  · rw [if_neg hc]
    have hnot : listingKey row ∉ acc.map listingKey := by
      intro hmem
      obtain ⟨x, hx, hkx⟩ := List.mem_map.mp hmem
      exact hc (List.any_eq_true.mpr ⟨x, hx, by simp [hkx]⟩)
    simp only [List.map_append, List.map_cons, List.map_nil]
    rw [List.nodup_append]
    exact ⟨h, List.nodup_singleton _, by
      intro a ha hb
      simp at hb
      exact hnot (hb ▸ ha)⟩

theorem dedupeGo_keys_nodup (rows acc : List ListingUpsert)
    (h : (acc.map listingKey).Nodup) :
    ((rows.foldl dedupStep acc).map listingKey).Nodup := by
  induction rows generalizing acc with
  | nil => exact h
  | cons r rest ih =>
    rw [List.foldl_cons]
    exact ih (dedupStep acc r) (dedupStep_keys_nodup acc r h)

theorem dedupeListingRows_keys_nodup (rows : List ListingUpsert) :
    ((dedupeListingRows rows).map listingKey).Nodup :=
  dedupeGo_keys_nodup rows [] (by simp)

/-! ### The conflict-resolving write, one row at a time -/

theorem conflictStep_update (now : Int) (db : ListingsDb) (r : ListingUpsert)
    (hany : db.listings.any (fun l => decide (rowKey l = listingKey r)) = true) :
    conflictUpsertListingRow now db r =
      { db with listings := db.listings.map (fun l =>
          if rowKey l = listingKey r then applyListingUpdate l r now else l) } := by
  simp [conflictUpsertListingRow, hany]

theorem conflictStep_insert (now : Int) (db : ListingsDb) (r : ListingUpsert)
    (hany : db.listings.any (fun l => decide (rowKey l = listingKey r)) = false) :
    conflictUpsertListingRow now db r =
      { db with
        listings := db.listings ++ [newListingRow r db.nextId now]
        nextId := db.nextId + 1 } := by
  simp [conflictUpsertListingRow, hany]

theorem conflictStep_priceChanges (now : Int) (db : ListingsDb)
    (r : ListingUpsert) :
    (conflictUpsertListingRow now db r).priceChanges = db.priceChanges := by
  unfold conflictUpsertListingRow
  split <;> rfl

theorem conflictStep_find?_other (now : Int) (db : ListingsDb)
    (r : ListingUpsert) (k : String × String) (hne : k ≠ listingKey r) :
    (conflictUpsertListingRow now db r).listings.find?
        (fun l => decide (rowKey l = k)) =
      db.listings.find? (fun l => decide (rowKey l = k)) := by
  by_cases hany :
      db.listings.any (fun l => decide (rowKey l = listingKey r)) = true
  · rw [conflictStep_update now db r hany]
    show (db.listings.map _).find? _ = _
    rw [find?_map_of_key_pres _ _ ?hu]
    case hu =>
      intro y
      by_cases hy : rowKey y = listingKey r
      · simp [hy, rowKey_applyListingUpdate]
      · simp [hy]
    cases hf : db.listings.find? (fun l => decide (rowKey l = k)) with
    | none => rfl
    | some l0 =>
      have hk0 : rowKey l0 = k := by simpa using List.find?_some hf
      have : ¬ (rowKey l0 = listingKey r) := by rw [hk0]; exact hne
      simp [this]
  · rw [conflictStep_insert now db r (by simpa using hany)]
    show (db.listings ++ [newListingRow r db.nextId now]).find? _ = _
    rw [List.find?_append]
    cases hf : db.listings.find? (fun l => decide (rowKey l = k)) with
    | some l0 => rfl
    | none =>
      simp [List.find?_cons, rowKey_newListingRow, Ne.symm hne]

theorem isFreshRow_eq_not_any (ls : List ListingRow) (r : ListingUpsert) :
    isFreshRow ls r =
      !(ls.any (fun l => decide (rowKey l = listingKey r))) := by
  unfold isFreshRow
  induction ls with
  | nil => rfl
  | cons a rest ih =>
    simp only [List.find?_cons, List.any_cons]
    cases h : decide (rowKey a = listingKey r) with
    | true => simp
    | false => simpa using ih

theorem conflictStep_isFresh_other (now : Int) (db : ListingsDb)
    (r r2 : ListingUpsert) (hne : listingKey r2 ≠ listingKey r) :
    isFreshRow (conflictUpsertListingRow now db r).listings r2 =
      isFreshRow db.listings r2 := by
  unfold isFreshRow
  rw [conflictStep_find?_other now db r (listingKey r2) hne]

theorem conflictStep_audit_other (now : Int) (db : ListingsDb)
    (r r2 : ListingUpsert) (hne : listingKey r2 ≠ listingKey r) :
    listingAuditEntry (conflictUpsertListingRow now db r).listings now r2 =
      listingAuditEntry db.listings now r2 := by
  unfold listingAuditEntry
  rw [conflictStep_find?_other now db r (listingKey r2) hne]

theorem conflictStep_wf (now : Int) (db : ListingsDb) (r : ListingUpsert)
    (hwf : db.wf) : (conflictUpsertListingRow now db r).wf := by
  obtain ⟨hkeys, hids, hbound⟩ := hwf
  by_cases hany :
      db.listings.any (fun l => decide (rowKey l = listingKey r)) = true
  · rw [conflictStep_update now db r hany]
    refine ⟨?_, ?_, ?_⟩
    · show ((db.listings.map _).map rowKey).Nodup
      rw [List.map_map]
      have : (rowKey ∘ fun l =>
          if rowKey l = listingKey r then applyListingUpdate l r now else l) =
          rowKey := by
        funext l
        by_cases hl : rowKey l = listingKey r <;>
          simp [hl, Function.comp, rowKey_applyListingUpdate]
      rw [this]
      exact hkeys
    · show ((db.listings.map _).map ListingRow.id).Nodup
      rw [List.map_map]
      have : (ListingRow.id ∘ fun l =>
          if rowKey l = listingKey r then applyListingUpdate l r now else l) =
          ListingRow.id := by
        funext l
        by_cases hl : rowKey l = listingKey r <;>
          simp [hl, Function.comp, id_applyListingUpdate]
      rw [this]
      exact hids
    · intro l hl
      obtain ⟨l0, hl0, rfl⟩ := List.mem_map.mp hl
      by_cases h0 : rowKey l0 = listingKey r <;>
        simp [h0, id_applyListingUpdate] <;> exact hbound l0 hl0
  · rw [conflictStep_insert now db r (by simpa using hany)]
    have hnotkey : listingKey r ∉ db.listings.map rowKey := by
      intro hmem
      obtain ⟨l0, hl0, hk0⟩ := List.mem_map.mp hmem
      have hall : ∀ x ∈ db.listings, ¬ (rowKey x = listingKey r) := by
        simpa using hany
      exact hall l0 hl0 hk0
    refine ⟨?_, ?_, ?_⟩
    · show ((db.listings ++ [newListingRow r db.nextId now]).map rowKey).Nodup
      simp only [List.map_append, List.map_cons, List.map_nil]
      rw [List.nodup_append]
      refine ⟨hkeys, List.nodup_singleton _, ?_⟩
      intro a ha hb
      simp [rowKey_newListingRow] at hb
      exact hnotkey (hb ▸ ha)
    · show ((db.listings ++ [newListingRow r db.nextId now]).map
        ListingRow.id).Nodup
      simp only [List.map_append, List.map_cons, List.map_nil]
      rw [List.nodup_append]
      refine ⟨hids, List.nodup_singleton _, ?_⟩
      intro a ha hb
      simp [newListingRow] at hb
      subst hb
      obtain ⟨l0, hl0, hk0⟩ := List.mem_map.mp ha
      have := hbound l0 hl0
      omega
    · intro l hl
      rcases List.mem_append.mp hl with hmem | hmem
      · have := hbound l hmem
        simp only [ListingsDb.mk.injEq]
        simp
        omega
      · simp at hmem
        subst hmem
        simp [newListingRow]

/-! ### Net-effect characterization of the bulk conflict write -/

theorem applyRowsTo_nil (now : Int) (l : ListingRow) :
    applyRowsTo [] now l = l := rfl

theorem applyRowsTo_cons_ne (r : ListingUpsert) (rest : List ListingUpsert)
    (now : Int) (l : ListingRow) (hne : ¬ (listingKey r = rowKey l)) :
    applyRowsTo (r :: rest) now l = applyRowsTo rest now l := by
  unfold applyRowsTo
  have hda : (decide (listingKey r = rowKey l)) = false := by simp [hne]
  simp only [List.find?_cons, hda, cond_false]

theorem applyRowsTo_cons_eq (r : ListingUpsert) (rest : List ListingUpsert)
    (now : Int) (l : ListingRow) (heq : listingKey r = rowKey l) :
    applyRowsTo (r :: rest) now l = applyListingUpdate l r now := by
  unfold applyRowsTo
  have : (r :: rest).find? (fun x => decide (listingKey x = rowKey l)) =
      some r := by
    simp [List.find?_cons, heq]
  rw [this]

theorem applyRowsTo_not_mem (rs : List ListingUpsert) (now : Int)
    (l : ListingRow) (h : rowKey l ∉ rs.map listingKey) :
    applyRowsTo rs now l = l := by
  unfold applyRowsTo
  have : rs.find? (fun x => decide (listingKey x = rowKey l)) = none := by
    rw [List.find?_eq_none]
    intro x hx
    simp only [decide_eq_true_eq]
    intro hk
    exact h (hk ▸ List.mem_map_of_mem listingKey hx)
  rw [this]

theorem rowKey_applyRowsTo (rs : List ListingUpsert) (now : Int)
    (l : ListingRow) : rowKey (applyRowsTo rs now l) = rowKey l := by
  unfold applyRowsTo
  split
  · exact rowKey_applyListingUpdate _ _ _
  · rfl

theorem conflict_fold_spec (now : Int) (rs : List ListingUpsert) :
    ∀ (db : ListingsDb), (rs.map listingKey).Nodup → db.wf →
    (rs.foldl (conflictUpsertListingRow now) db).listings =
      db.listings.map (applyRowsTo rs now) ++
        appendFreshRows (freshRows db.listings rs) db.nextId now
    ∧ (rs.foldl (conflictUpsertListingRow now) db).nextId =
      db.nextId + (freshRows db.listings rs).length
    ∧ (rs.foldl (conflictUpsertListingRow now) db).priceChanges =
      db.priceChanges := by
  induction rs with
  | nil =>
    intro db _ _
    refine ⟨?_, by simp [freshRows], rfl⟩
    rw [map_congr_mem db.listings (applyRowsTo [] now) (fun l => l)
      (fun l _ => applyRowsTo_nil now l)]
    simp [freshRows, appendFreshRows]
  | cons r rest ih =>
    intro db hnd hwf
    rw [List.foldl_cons]
    simp only [List.map_cons, List.nodup_cons] at hnd
    obtain ⟨hkr, hndrest⟩ := hnd
    have hwf1 := conflictStep_wf now db r hwf
    obtain ⟨ihl, ihn, ihp⟩ := ih (conflictUpsertListingRow now db r) hndrest hwf1
    have hfresh_stable :
        freshRows (conflictUpsertListingRow now db r).listings rest =
          freshRows db.listings rest := by
      unfold freshRows
      apply filter_congr_mem
      intro r2 hr2
      apply conflictStep_isFresh_other
      intro heq
      exact hkr (heq ▸ List.mem_map_of_mem listingKey hr2)
    by_cases hany :
        db.listings.any (fun l => decide (rowKey l = listingKey r)) = true
    · have hupd := conflictStep_update now db r hany
      have hLup : (conflictUpsertListingRow now db r).listings =
          db.listings.map (fun l =>
            if rowKey l = listingKey r then applyListingUpdate l r now
            else l) := by rw [hupd]
      have hNup : (conflictUpsertListingRow now db r).nextId = db.nextId := by
        rw [hupd]
      have hfreshr : isFreshRow db.listings r = false := by
        rw [isFreshRow_eq_not_any, hany]
        rfl
      have hfresh_cons : freshRows db.listings (r :: rest) =
          freshRows db.listings rest := by
        unfold freshRows
        rw [List.filter_cons_of_neg (by simp [hfreshr])]
      refine ⟨?_, ?_, ?_⟩
      · rw [ihl, hfresh_stable, hLup, hNup, hfresh_cons]
        congr 1
        rw [List.map_map]
        apply map_congr_mem
        intro l hl
        by_cases hcase : rowKey l = listingKey r
        · simp only [Function.comp, if_pos hcase]
          rw [applyRowsTo_not_mem rest now _
            (by rw [rowKey_applyListingUpdate, hcase]; exact hkr)]
          rw [applyRowsTo_cons_eq r rest now l hcase.symm]
        · simp only [Function.comp, if_neg hcase]
          rw [applyRowsTo_cons_ne r rest now l (fun h => hcase h.symm)]
      · rw [ihn, hfresh_stable, hNup, hfresh_cons]
      · rw [ihp, conflictStep_priceChanges]
    · have hanyf : db.listings.any
            (fun l => decide (rowKey l = listingKey r)) = false := by
        simpa using hany
      have hins := conflictStep_insert now db r hanyf
      have hLin : (conflictUpsertListingRow now db r).listings =
          db.listings ++ [newListingRow r db.nextId now] := by rw [hins]
      have hNin : (conflictUpsertListingRow now db r).nextId =
          db.nextId + 1 := by rw [hins]
      have hnokey : ∀ l ∈ db.listings, ¬ (rowKey l = listingKey r) := by
        simpa using hanyf
      have hfreshr : isFreshRow db.listings r = true := by
        rw [isFreshRow_eq_not_any, hanyf]
        rfl
      have hfresh_cons : freshRows db.listings (r :: rest) =
          r :: freshRows db.listings rest := by
        unfold freshRows
        rw [List.filter_cons_of_pos (by simp [hfreshr])]
      refine ⟨?_, ?_, ?_⟩
      · rw [ihl, hfresh_stable, hLin, hNin, hfresh_cons]
        rw [List.map_append]
        have hnewfix : applyRowsTo rest now (newListingRow r db.nextId now) =
            newListingRow r db.nextId now :=
          applyRowsTo_not_mem rest now _
            (by rw [rowKey_newListingRow]; exact hkr)
        simp only [List.map_cons, List.map_nil, hnewfix]
        rw [map_congr_mem db.listings (applyRowsTo rest now)
          (applyRowsTo (r :: rest) now)
          (fun l hl => (applyRowsTo_cons_ne r rest now l
            (fun h => hnokey l hl h.symm)).symm)]
        rw [List.append_assoc, List.singleton_append]
        rfl
      · rw [ihn, hfresh_stable, hNin, hfresh_cons]
        simp only [List.length_cons]
        omega
      · rw [ihp, conflictStep_priceChanges]

/-! ### The portable fallback is the conflict write plus the audit trail -/

theorem fallbackStep_eq_conflictStep (now : Int) (db : ListingsDb)
    (r : ListingUpsert) (hwf : db.wf) :
    upsertListingRowFallback now db r =
      { conflictUpsertListingRow now db r with
        priceChanges := db.priceChanges ++
          (listingAuditEntry db.listings now r).toList } := by
  obtain ⟨hkeys, hids, _⟩ := hwf
  unfold upsertListingRowFallback listingAuditEntry
  cases hf : db.listings.find? (fun l => decide (rowKey l = listingKey r)) with
  | none =>
    have hany : db.listings.any
        (fun l => decide (rowKey l = listingKey r)) = false := by
      rw [List.any_eq_false]
      intro l hl
      have := List.find?_eq_none.mp hf l hl
      simpa using this
    rw [conflictStep_insert now db r hany]
    simp
  | some l =>
    have hl : l ∈ db.listings := List.mem_of_find?_eq_some hf
    have hkey : rowKey l = listingKey r := by simpa using List.find?_some hf
    have hany : db.listings.any
        (fun l => decide (rowKey l = listingKey r)) = true :=
      List.any_eq_true.mpr ⟨l, hl, by simp [hkey]⟩
    rw [conflictStep_update now db r hany]
    have hmaps : db.listings.map (fun l2 =>
        if l2.id = l.id then applyListingUpdate l2 r now else l2) =
        db.listings.map (fun l2 =>
          if rowKey l2 = listingKey r then applyListingUpdate l2 r now
          else l2) := by
      apply map_congr_mem
      intro l2 hl2
      by_cases hid : l2.id = l.id
      · have hl2l : l2 = l := List.inj_on_of_nodup_map hids hl2 hl hid
        have hk2 : rowKey l2 = listingKey r := by rw [hl2l, hkey]
        rw [if_pos hid, if_pos hk2]
      · have hk2 : ¬ (rowKey l2 = listingKey r) := by
          intro hk
          apply hid
          have : l2 = l :=
            List.inj_on_of_nodup_map hkeys hl2 hl (by rw [hk, ← hkey])
          rw [this]
        rw [if_neg hid, if_neg hk2]
    by_cases hdiff : l.deposit ≠ r.deposit ∨ l.monthlyRent ≠ r.monthlyRent
    · simp only [if_pos hdiff, hmaps, Option.toList_some]
    · simp only [if_neg hdiff, hmaps, Option.toList_none, List.append_nil]

theorem conflictStep_pc_swap (now : Int) (db : ListingsDb)
    (r : ListingUpsert) (P : List PriceChangeRow) :
    conflictUpsertListingRow now { db with priceChanges := P } r =
      { conflictUpsertListingRow now db r with priceChanges := P } := by
  unfold conflictUpsertListingRow
  by_cases hany :
      db.listings.any (fun l => decide (rowKey l = listingKey r)) = true
  · simp [hany]
  · simp [hany]

theorem conflict_fold_pc_swap (now : Int) (rs : List ListingUpsert) :
    ∀ (db : ListingsDb) (P : List PriceChangeRow),
    rs.foldl (conflictUpsertListingRow now) { db with priceChanges := P } =
      { rs.foldl (conflictUpsertListingRow now) db with priceChanges := P } := by
  induction rs with
  | nil => intro db P; rfl
  | cons r rest ih =>
    intro db P
    rw [List.foldl_cons, List.foldl_cons, conflictStep_pc_swap,
      ih (conflictUpsertListingRow now db r) P]

theorem wf_pc_swap (db : ListingsDb) (P : List PriceChangeRow)
    (hwf : db.wf) : ListingsDb.wf { db with priceChanges := P } := hwf

theorem fallback_fold_eq_conflict (now : Int) (rs : List ListingUpsert) :
    ∀ (db : ListingsDb), (rs.map listingKey).Nodup → db.wf →
    rs.foldl (upsertListingRowFallback now) db =
      { rs.foldl (conflictUpsertListingRow now) db with
        priceChanges := db.priceChanges ++
          rs.filterMap (listingAuditEntry db.listings now) } := by
  induction rs with
  | nil => intro db _ _; simp
  | cons r rest ih =>
    intro db hnd hwf
    simp only [List.map_cons, List.nodup_cons] at hnd
    obtain ⟨hkr, hndrest⟩ := hnd
    rw [List.foldl_cons, List.foldl_cons,
      fallbackStep_eq_conflictStep now db r hwf]
    have hwf1 : ListingsDb.wf { conflictUpsertListingRow now db r with
        priceChanges := db.priceChanges ++
          (listingAuditEntry db.listings now r).toList } :=
      wf_pc_swap _ _ (conflictStep_wf now db r hwf)
    rw [ih _ hndrest hwf1]
    rw [conflict_fold_pc_swap]
    have haudit : rest.filterMap (listingAuditEntry
        (conflictUpsertListingRow now db r).listings now) =
        rest.filterMap (listingAuditEntry db.listings now) := by
      apply filterMap_congr_mem
      intro r2 hr2
      apply conflictStep_audit_other
      intro heq
      exact hkr (heq ▸ List.mem_map_of_mem listingKey hr2)
    simp only [haudit]
    rw [List.filterMap_cons]
    cases haud : listingAuditEntry db.listings now r with
    | none => simp
    | some e => simp

theorem conflict_fold_wf (now : Int) (rs : List ListingUpsert) :
    ∀ (db : ListingsDb), db.wf →
    (rs.foldl (conflictUpsertListingRow now) db).wf := by
  induction rs with
  | nil => intro db h; exact h
  | cons r rest ih =>
    intro db h
    rw [List.foldl_cons]
    exact ih _ (conflictStep_wf now db r h)

/-! ### One upsert_listings call, characterized -/

theorem eq_nil_of_isEmpty_eq_true {γ : Type} (l : List γ)
    (h : l.isEmpty = true) : l = [] := by
  cases l with
  | nil => rfl
  | cons a t => simp [List.isEmpty_cons] at h

theorem upsertListingsPg_eq (db : ListingsDb) (rows : List ListingUpsert)
    (now : Int) :
    upsertListingsPg db rows now =
      ((dedupeListingRows rows).length,
        { (dedupeListingRows rows).foldl (conflictUpsertListingRow now) db with
          priceChanges :=
            ((dedupeListingRows rows).foldl
              (conflictUpsertListingRow now) db).priceChanges ++
              (dedupeListingRows rows).filterMap
                (listingAuditEntry db.listings now) }) := rfl

theorem upsertListingsFallback_eq (db : ListingsDb)
    (rows : List ListingUpsert) (now : Int) :
    upsertListingsFallback db rows now =
      ((dedupeListingRows rows).length,
        (dedupeListingRows rows).foldl (upsertListingRowFallback now) db) :=
  rfl

theorem upsertListings_pg (db : ListingsDb) (rows : List ListingUpsert)
    (now : Int) (h : ¬ rows.isEmpty = true) :
    upsertListings SqlDialect.postgresql db rows now =
      upsertListingsPg db rows now := by
  simp [upsertListings, h]

theorem upsertListings_fb (db : ListingsDb) (rows : List ListingUpsert)
    (now : Int) (h : ¬ rows.isEmpty = true) :
    upsertListings SqlDialect.fallback db rows now =
      upsertListingsFallback db rows now := by
  simp [upsertListings, h]

theorem upsertListings_spec (dialect : SqlDialect) (db : ListingsDb)
    (rows : List ListingUpsert) (now : Int) (hwf : db.wf) :
    (upsertListings dialect db rows now).1 = (dedupeListingRows rows).length
    ∧ (upsertListings dialect db rows now).2.listings =
        db.listings.map (applyRowsTo (dedupeListingRows rows) now) ++
          appendFreshRows (freshRows db.listings (dedupeListingRows rows))
            db.nextId now
    ∧ (upsertListings dialect db rows now).2.nextId =
        db.nextId + (freshRows db.listings (dedupeListingRows rows)).length
    ∧ (upsertListings dialect db rows now).2.priceChanges =
        db.priceChanges ++ (dedupeListingRows rows).filterMap
          (listingAuditEntry db.listings now) := by
  obtain ⟨hl, hn, hp⟩ := conflict_fold_spec now (dedupeListingRows rows) db
    (dedupeListingRows_keys_nodup rows) hwf
  by_cases hempty : rows.isEmpty = true
  · have hrows : rows = [] := eq_nil_of_isEmpty_eq_true rows hempty
    subst hrows
    exact ⟨rfl, hl, hn, by simp [upsertListings, dedupeListingRows]⟩
  · cases dialect with
    | postgresql =>
      rw [upsertListings_pg db rows now hempty, upsertListingsPg_eq]
      refine ⟨rfl, hl, hn, ?_⟩
      show ((dedupeListingRows rows).foldl
          (conflictUpsertListingRow now) db).priceChanges ++
          (dedupeListingRows rows).filterMap
            (listingAuditEntry db.listings now) = _
      rw [hp]
    | fallback =>
      rw [upsertListings_fb db rows now hempty, upsertListingsFallback_eq]
      have hfold := fallback_fold_eq_conflict now (dedupeListingRows rows) db
        (dedupeListingRows_keys_nodup rows) hwf
      refine ⟨rfl, ?_, ?_, ?_⟩
      · show ((dedupeListingRows rows).foldl
          (upsertListingRowFallback now) db).listings = _
        rw [hfold]
        exact hl
      · show ((dedupeListingRows rows).foldl
          (upsertListingRowFallback now) db).nextId = _
        rw [hfold]
        exact hn
      · show ((dedupeListingRows rows).foldl
          (upsertListingRowFallback now) db).priceChanges = _
        rw [hfold]

theorem upsertListings_wf (dialect : SqlDialect) (db : ListingsDb)
    (rows : List ListingUpsert) (now : Int) (hwf : db.wf) :
    (upsertListings dialect db rows now).2.wf := by
  by_cases hempty : rows.isEmpty = true
  · have hrows : rows = [] := eq_nil_of_isEmpty_eq_true rows hempty
    subst hrows
    exact hwf
  · cases dialect with
    | postgresql =>
      rw [upsertListings_pg db rows now hempty, upsertListingsPg_eq]
      exact wf_pc_swap _ _
        (conflict_fold_wf now (dedupeListingRows rows) db hwf)
    | fallback =>
      rw [upsertListings_fb db rows now hempty, upsertListingsFallback_eq]
      show ((dedupeListingRows rows).foldl
        (upsertListingRowFallback now) db).wf
      rw [fallback_fold_eq_conflict now (dedupeListingRows rows) db
        (dedupeListingRows_keys_nodup rows) hwf]
      exact wf_pc_swap _ _
        (conflict_fold_wf now (dedupeListingRows rows) db hwf)

/-! ### Fresh-row bookkeeping -/

theorem mem_appendFreshRows (rs : List ListingUpsert) (id : Nat) (now : Int)
    (y : ListingRow) (hy : y ∈ appendFreshRows rs id now) :
    ∃ r ∈ rs, ∃ j, y = newListingRow r j now := by
  induction rs generalizing id with
  | nil => cases hy
  | cons r rest ih =>
    rcases List.mem_cons.mp hy with rfl | hmem
    · exact ⟨r, List.mem_cons_self r rest, id, rfl⟩
    · obtain ⟨r2, hr2, j, hj⟩ := ih (id + 1) hmem
      exact ⟨r2, List.mem_cons_of_mem r hr2, j, hj⟩

theorem find?_appendFreshRows (rs : List ListingUpsert) (id : Nat) (now : Int)
    (r : ListingUpsert) (hnd : (rs.map listingKey).Nodup) (hr : r ∈ rs) :
    ∃ j, (appendFreshRows rs id now).find?
      (fun l => decide (rowKey l = listingKey r)) =
        some (newListingRow r j now) := by
  induction rs generalizing id with
  | nil => cases hr
  | cons r0 rest ih =>
    simp only [List.map_cons, List.nodup_cons] at hnd
    rcases List.mem_cons.mp hr with rfl | hmem
    · exact ⟨id, by simp [appendFreshRows, List.find?_cons,
        rowKey_newListingRow]⟩
    · have hne : ¬ (listingKey r0 = listingKey r) := by
        intro h
        exact hnd.1 (by rw [h]; exact List.mem_map_of_mem listingKey hmem)
      obtain ⟨j, hj⟩ := ih (id + 1) hnd.2 hmem
      refine ⟨j, ?_⟩
      have hda : decide (rowKey (newListingRow r0 id now) = listingKey r) =
          false := by simp [rowKey_newListingRow, hne]
      simp only [appendFreshRows, List.find?_cons, hda, cond_false]
      exact hj

theorem freshRows_keys_nodup (ls : List ListingRow)
    (rs : List ListingUpsert) (hnd : (rs.map listingKey).Nodup) :
    ((freshRows ls rs).map listingKey).Nodup := by
  unfold freshRows
  exact List.Nodup.sublist ((rs.filter_sublist).map listingKey) hnd

theorem upsert_post_find (dialect : SqlDialect) (db : ListingsDb)
    (rows : List ListingUpsert) (now : Int) (hwf : db.wf)
    (r : ListingUpsert) (hr : r ∈ dedupeListingRows rows) :
    ∃ l1, (upsertListings dialect db rows now).2.listings.find?
        (fun l => decide (rowKey l = listingKey r)) = some l1
      ∧ l1.deposit = r.deposit ∧ l1.monthlyRent = r.monthlyRent
      ∧ ∀ t2 : Int, applyListingUpdate l1 r t2 =
          { l1 with lastSeenAt := t2 } := by
  obtain ⟨_, hl, _, _⟩ := upsertListings_spec dialect db rows now hwf
  rw [hl, List.find?_append]
  have hpres : ∀ y, (fun l => decide (rowKey l = listingKey r))
      (applyRowsTo (dedupeListingRows rows) now y) =
      (fun l => decide (rowKey l = listingKey r)) y := by
    intro y
    simp [rowKey_applyRowsTo]
  cases hf : db.listings.find? (fun l => decide (rowKey l = listingKey r)) with
  | some l =>
    have hkey : rowKey l = listingKey r := by simpa using List.find?_some hf
    have hmap : (db.listings.map
        (applyRowsTo (dedupeListingRows rows) now)).find?
        (fun l => decide (rowKey l = listingKey r)) =
        some (applyRowsTo (dedupeListingRows rows) now l) := by
      rw [find?_map_of_key_pres _ _ hpres, hf]
      rfl
    rw [hmap]
    have hDfind : (dedupeListingRows rows).find?
        (fun r2 => decide (listingKey r2 = rowKey l)) = some r := by
      rw [hkey]
      exact find?_eq_some_of_nodup_keys listingKey (dedupeListingRows rows) r
        (listingKey r) (dedupeListingRows_keys_nodup rows) hr rfl
    have happ : applyRowsTo (dedupeListingRows rows) now l =
        applyListingUpdate l r now := by
      unfold applyRowsTo
      rw [hDfind]
    refine ⟨applyListingUpdate l r now, ?_, rfl, rfl, fun t2 => rfl⟩
    simp [happ]
  | none =>
    have hmap : (db.listings.map
        (applyRowsTo (dedupeListingRows rows) now)).find?
        (fun l => decide (rowKey l = listingKey r)) = none := by
      rw [find?_map_of_key_pres _ _ hpres, hf]
      rfl
    have hfresh : isFreshRow db.listings r = true := by
      unfold isFreshRow
      rw [hf]
      rfl
    have hrF : r ∈ freshRows db.listings (dedupeListingRows rows) :=
      List.mem_filter.mpr ⟨hr, hfresh⟩
    obtain ⟨j, hj⟩ := find?_appendFreshRows
      (freshRows db.listings (dedupeListingRows rows)) db.nextId now r
      (freshRows_keys_nodup db.listings (dedupeListingRows rows)
        (dedupeListingRows_keys_nodup rows)) hrF
    rw [hmap]
    refine ⟨newListingRow r j now, ?_, rfl, rfl, fun t2 => rfl⟩
    simp [hj]

/-! ## Claim C2: upsert idempotence -/

/-- C2: re-upserting the exact same batch returns the same count as the
first call, creates zero additional PriceChange rows, allocates no new ids,
and changes each affected listing only by refreshing last_seen_at (is_active
is rewritten to its existing value true); listings outside the batch are
untouched.  Holds on both the PostgreSQL path and the portable fallback. -/
theorem upsert_listings_idempotent (dialect : SqlDialect) (db : ListingsDb)
    (rows : List ListingUpsert) (t1 t2 : Int) (hwf : db.wf) :
    (upsertListings dialect (upsertListings dialect db rows t1).2 rows t2).1 =
      (upsertListings dialect db rows t1).1
    ∧ (upsertListings dialect
        (upsertListings dialect db rows t1).2 rows t2).2.priceChanges =
      (upsertListings dialect db rows t1).2.priceChanges
    ∧ (upsertListings dialect
        (upsertListings dialect db rows t1).2 rows t2).2.nextId =
      (upsertListings dialect db rows t1).2.nextId
    ∧ (upsertListings dialect
        (upsertListings dialect db rows t1).2 rows t2).2.listings =
      (upsertListings dialect db rows t1).2.listings.map (fun l =>
        if (dedupeListingRows rows).any
            (fun r => decide (listingKey r = rowKey l)) then
          { l with lastSeenAt := t2 }
        else l) := by
  have hwf1 := upsertListings_wf dialect db rows t1 hwf
  have h1 := upsertListings_spec dialect db rows t1 hwf
  have h2 := upsertListings_spec dialect
    (upsertListings dialect db rows t1).2 rows t2 hwf1
  have hpost := fun r hr => upsert_post_find dialect db rows t1 hwf r hr
  set DB1 := (upsertListings dialect db rows t1).2 with hDB1
  have hfreshnil : freshRows DB1.listings (dedupeListingRows rows) = [] := by
    unfold freshRows
    rw [List.filter_eq_nil_iff]
    intro r hr
    obtain ⟨l1, hfind, _, _, _⟩ := hpost r hr
    unfold isFreshRow
    rw [hfind]
    simp
  have hauditnil : (dedupeListingRows rows).filterMap
      (listingAuditEntry DB1.listings t2) = [] := by
    rw [List.filterMap_eq_nil_iff]
    intro r hr
    obtain ⟨l1, hfind, hdep, hmr, _⟩ := hpost r hr
    unfold listingAuditEntry
    rw [hfind]
    simp [hdep, hmr]
  refine ⟨?_, ?_, ?_, ?_⟩
  · rw [h2.1, h1.1]
  · rw [h2.2.2.2, hauditnil, List.append_nil]
  · rw [h2.2.2.1, hfreshnil]
    simp
  · rw [h2.2.1, hfreshnil]
    show DB1.listings.map (applyRowsTo (dedupeListingRows rows) t2) ++ [] = _
    rw [List.append_nil]
    apply map_congr_mem
    intro l1 hl1
    cases hfD : (dedupeListingRows rows).find?
        (fun r => decide (listingKey r = rowKey l1)) with
    | none =>
      have hanyf : (dedupeListingRows rows).any
          (fun r => decide (listingKey r = rowKey l1)) = false := by
        rw [List.any_eq_false]
        intro r hr
        have := List.find?_eq_none.mp hfD r hr
        simpa using this
      unfold applyRowsTo
      rw [hfD, if_neg (by simp [hanyf])]
    | some r =>
      have hrD : r ∈ dedupeListingRows rows := List.mem_of_find?_eq_some hfD
      have hkr : listingKey r = rowKey l1 := by simpa using List.find?_some hfD
      have hanyt : (dedupeListingRows rows).any
          (fun r2 => decide (listingKey r2 = rowKey l1)) = true :=
        List.any_eq_true.mpr ⟨r, hrD, by simp [hkr]⟩
      obtain ⟨l1i, hfind, hdep, hmr, hupd⟩ := hpost r hrD
      have hfind2 : DB1.listings.find?
          (fun l => decide (rowKey l = listingKey r)) = some l1 :=
        find?_eq_some_of_nodup_keys rowKey DB1.listings l1 (listingKey r)
          hwf1.1 hl1 hkr.symm
      rw [hfind] at hfind2
      have hl1eq : l1i = l1 := Option.some.inj hfind2
      rw [hl1eq] at hupd
      unfold applyRowsTo
      rw [hfD, if_pos hanyt]
      exact hupd t2

/-- C2 witness: a fresh store, one Zigbang record upserted twice on the
fallback path at times 100 then 200 — one row counted both times, no price
changes, and only last_seen_at refreshed. -/
theorem upsert_listings_idempotent_witness :
    (upsertListings SqlDialect.fallback
      (upsertListings SqlDialect.fallback emptyListingsDb
        [sampleUpsertA] 100).2 [sampleUpsertA] 200).1 =
      (upsertListings SqlDialect.fallback emptyListingsDb
        [sampleUpsertA] 100).1
    ∧ (upsertListings SqlDialect.fallback
        (upsertListings SqlDialect.fallback emptyListingsDb
          [sampleUpsertA] 100).2 [sampleUpsertA] 200).2.priceChanges = []
    ∧ (upsertListings SqlDialect.fallback
        (upsertListings SqlDialect.fallback emptyListingsDb
          [sampleUpsertA] 100).2 [sampleUpsertA] 200).2.listings =
      [{ newListingRow sampleUpsertA 1 100 with lastSeenAt := 200 }] := by
  have h := upsert_listings_idempotent SqlDialect.fallback emptyListingsDb
    [sampleUpsertA] 100 200 (by decide)
  refine ⟨h.1, ?_, ?_⟩
  · rw [h.2.1]
    decide
  · rw [h.2.2.2]
    decide

/-! ## Claim C3: price-change audit correctness -/

theorem filter_filterMap_nil_of_all {γ δ : Type} (l : List γ)
    (g : γ → Option δ) (q : δ → Bool)
    (h : ∀ x ∈ l, ∀ e, g x = some e → q e = false) :
    (l.filterMap g).filter q = [] := by
  rw [List.filter_eq_nil_iff]
  intro e he
  obtain ⟨x, hx, hgx⟩ := List.mem_filterMap.mp he
  simp [h x hx e hgx]

theorem filter_audit_single (D : List ListingUpsert)
    (g : ListingUpsert → Option PriceChangeRow) (q : PriceChangeRow → Bool)
    (r : ListingUpsert) (hnd : (D.map listingKey).Nodup) (hr : r ∈ D)
    (hother : ∀ r2 ∈ D, r2 ≠ r → ∀ e, g r2 = some e → q e = false) :
    (D.filterMap g).filter q = (g r).toList.filter q := by
  induction D with
  | nil => cases hr
  | cons r0 rest ih =>
    simp only [List.map_cons, List.nodup_cons] at hnd
    rcases List.mem_cons.mp hr with rfl | hmem
    · have hrestne : ∀ r2 ∈ rest, r2 ≠ r := by
        intro r2 h2 heq
        subst heq
        exact hnd.1 (List.mem_map_of_mem listingKey h2)
      have hrest : (rest.filterMap g).filter q = [] :=
        filter_filterMap_nil_of_all rest g q (fun x hx e hg =>
          hother x (List.mem_cons_of_mem _ hx) (hrestne x hx) e hg)
      rw [List.filterMap_cons]
      cases hg : g r with
      | none => simp [hrest]
      | some e =>
        cases hq : q e with
        | true =>
          rw [List.filter_cons_of_pos hq, hrest]
          simp [hq]
        | false =>
          rw [List.filter_cons_of_neg (by simp [hq]), hrest]
          simp [hq]
    · have hne : r0 ≠ r := by
        intro heq
        subst heq
        exact hnd.1 (List.mem_map_of_mem listingKey hmem)
      have ihr := ih hnd.2 hmem
        (fun r2 h2 => hother r2 (List.mem_cons_of_mem _ h2))
      rw [List.filterMap_cons]
      cases hg : g r0 with
      | none => exact ihr
      | some e =>
        rw [List.filter_cons_of_neg
          (by simp [hother r0 (List.mem_cons_self _ _) hne e hg])]
        exact ihr

/-- C3: for a stored listing and the batch row sharing its natural key, one
upsert_listings call leaves exactly one listing under that key — the stored
row updated to the incoming mutable fields with deposit/monthly_rent set to
the incoming values — and appends exactly one PriceChange row (old = stored,
new = incoming) to that listing's audit trail when deposit or monthly_rent
differ, and none when neither differs.  Holds on both dialect paths. -/
theorem upsert_listings_price_audit (dialect : SqlDialect) (db : ListingsDb)
    (rows : List ListingUpsert) (t : Int) (r : ListingUpsert)
    (l : ListingRow) (hwf : db.wf) (hr : r ∈ dedupeListingRows rows)
    (hl : l ∈ db.listings) (hk : rowKey l = listingKey r) :
    (upsertListings dialect db rows t).2.listings.filter
        (fun l2 => decide (rowKey l2 = listingKey r)) =
      [applyListingUpdate l r t]
    ∧ (upsertListings dialect db rows t).2.priceChanges.filter
        (fun pc => decide (pc.listingId = l.id)) =
      db.priceChanges.filter (fun pc => decide (pc.listingId = l.id)) ++
        (if l.deposit ≠ r.deposit ∨ l.monthlyRent ≠ r.monthlyRent then
          [⟨l.id, l.deposit, l.monthlyRent, r.deposit, r.monthlyRent, t⟩]
        else []) := by
  have hspec := upsertListings_spec dialect db rows t hwf
  have hndD : ((dedupeListingRows rows).map listingKey).Nodup :=
    dedupeListingRows_keys_nodup rows
  constructor
  · rw [hspec.2.1, List.filter_append]
    have hmapped_keys : ((db.listings.map
        (applyRowsTo (dedupeListingRows rows) t)).map rowKey).Nodup := by
      rw [List.map_map]
      have : (rowKey ∘ applyRowsTo (dedupeListingRows rows) t) = rowKey :=
        funext fun l2 => rowKey_applyRowsTo (dedupeListingRows rows) t l2
      rw [this]
      exact hwf.1
    have h1 : (db.listings.map (applyRowsTo (dedupeListingRows rows) t)).filter
        (fun l2 => decide (rowKey l2 = listingKey r)) =
        [applyRowsTo (dedupeListingRows rows) t l] :=
      filter_key_eq_singleton rowKey _ (applyRowsTo (dedupeListingRows rows) t l)
        (listingKey r) hmapped_keys (List.mem_map_of_mem _ hl)
        (by rw [rowKey_applyRowsTo, hk])
    have h2 : (appendFreshRows
        (freshRows db.listings (dedupeListingRows rows)) db.nextId t).filter
        (fun l2 => decide (rowKey l2 = listingKey r)) = [] := by
      rw [List.filter_eq_nil_iff]
      intro y hy
      obtain ⟨r2, hr2, j, rfl⟩ := mem_appendFreshRows _ _ _ y hy
      have hfresh2 : isFreshRow db.listings r2 = true :=
        (List.mem_filter.mp hr2).2
      unfold isFreshRow at hfresh2
      have hnone : db.listings.find?
          (fun l2 => decide (rowKey l2 = listingKey r2)) = none :=
        Option.isNone_iff_eq_none.mp hfresh2
      have hlne := List.find?_eq_none.mp hnone l hl
      simp only [rowKey_newListingRow, decide_eq_true_eq]
      intro hkey2
      apply hlne
      simp [hk, hkey2]
    rw [h1, h2, List.append_nil]
    have hDfind : (dedupeListingRows rows).find?
        (fun r2 => decide (listingKey r2 = rowKey l)) = some r := by
      rw [hk]
      exact find?_eq_some_of_nodup_keys listingKey (dedupeListingRows rows) r
        (listingKey r) hndD hr rfl
    congr 1
    unfold applyRowsTo
    rw [hDfind]
  · rw [hspec.2.2.2, List.filter_append]
    congr 1
    have hg : listingAuditEntry db.listings t r =
        (if l.deposit ≠ r.deposit ∨ l.monthlyRent ≠ r.monthlyRent then
          some ⟨l.id, l.deposit, l.monthlyRent, r.deposit, r.monthlyRent, t⟩
        else none) := by
      unfold listingAuditEntry
      have hf : db.listings.find?
          (fun l2 => decide (rowKey l2 = listingKey r)) = some l :=
        find?_eq_some_of_nodup_keys rowKey db.listings l (listingKey r)
          hwf.1 hl hk
      rw [hf]
    have hother : ∀ r2 ∈ dedupeListingRows rows, r2 ≠ r →
        ∀ e, listingAuditEntry db.listings t r2 = some e →
        (fun pc => decide (pc.listingId = l.id)) e = false := by
      intro r2 h2 hne e hge
      cases hf2 : db.listings.find?
          (fun l2 => decide (rowKey l2 = listingKey r2)) with
      | none =>
        have haudit2 : listingAuditEntry db.listings t r2 = none := by
          unfold listingAuditEntry
          rw [hf2]
        rw [haudit2] at hge
        simp at hge
      | some l2 =>
        have haudit2 : listingAuditEntry db.listings t r2 =
            (if l2.deposit ≠ r2.deposit ∨ l2.monthlyRent ≠ r2.monthlyRent then
              some ⟨l2.id, l2.deposit, l2.monthlyRent, r2.deposit,
                r2.monthlyRent, t⟩
            else none) := by
          unfold listingAuditEntry
          rw [hf2]
        rw [haudit2] at hge
        have hl2 : l2 ∈ db.listings := List.mem_of_find?_eq_some hf2
        have hk2 : rowKey l2 = listingKey r2 := by
          simpa using List.find?_some hf2
        have hkne : listingKey r2 ≠ listingKey r := by
          intro heq
          exact hne (List.inj_on_of_nodup_map hndD h2 hr heq)
        have hl2nel : l2 ≠ l := by
          intro heq
          subst heq
          exact hkne (by rw [← hk2, hk])
        have hidne : l2.id ≠ l.id := by
          intro heq
          exact hl2nel (List.inj_on_of_nodup_map hwf.2.1 hl2 hl heq)
        by_cases hdiff2 : l2.deposit ≠ r2.deposit ∨ l2.monthlyRent ≠ r2.monthlyRent
        · rw [if_pos hdiff2] at hge
          have he : e = ⟨l2.id, l2.deposit, l2.monthlyRent, r2.deposit,
              r2.monthlyRent, t⟩ := (Option.some.inj hge).symm
          subst he
          simp [hidne]
        · rw [if_neg hdiff2] at hge
          simp at hge
    have hmain := filter_audit_single (dedupeListingRows rows)
      (listingAuditEntry db.listings t)
      (fun pc => decide (pc.listingId = l.id)) r hndD hr hother
    rw [hmain, hg]
    by_cases hdiff : l.deposit ≠ r.deposit ∨ l.monthlyRent ≠ r.monthlyRent
    · rw [if_pos hdiff, if_pos hdiff]
      simp
    · rw [if_neg hdiff, if_neg hdiff]
      rfl

/-- C3 witness: store holds listing id 1 with deposit 50000; upserting the
same natural key with deposit 48000 at time 200 yields exactly one
PriceChange row (old 50000 → new 48000) for that listing, and the listing's
stored record updated to the incoming values. -/
theorem upsert_listings_price_audit_witness :
    (upsertListings SqlDialect.fallback sampleListingsDb [sampleUpsertB]
      200).2.listings.filter
        (fun l2 => decide (rowKey l2 = listingKey sampleUpsertB)) =
      [applyListingUpdate (newListingRow sampleUpsertA 1 100) sampleUpsertB 200]
    ∧ (upsertListings SqlDialect.fallback sampleListingsDb [sampleUpsertB]
      200).2.priceChanges.filter
        (fun pc => decide (pc.listingId = 1)) =
      [⟨1, 50000, 0, 48000, 0, 200⟩] := by
  have h := upsert_listings_price_audit SqlDialect.fallback sampleListingsDb
    [sampleUpsertB] 200 sampleUpsertB (newListingRow sampleUpsertA 1 100)
    (by decide) (by decide) (by decide) (by decide)
  refine ⟨h.1, ?_⟩
  exact h.2.trans (by decide)

/-! ## Lemmas for the crawler orchestration (claims C1, C10) -/

theorem ZigCore_init : ZigCore zigbangInitState := by
  refine ⟨rfl, rfl, List.nodup_nil, ?_⟩
  intro row hrow
  simp [zigbangInitState] at hrow

theorem ZigGood_init : ZigGood zigbangInitState :=
  ⟨ZigCore_init, Nat.le_refl 0⟩

theorem noteSchemaKeys_core (st : ZigbangRunState) (ks : List String)
    (h : ZigCore st) :
    ZigCore (noteSchemaKeys st ks)
    ∧ (noteSchemaKeys st ks).parsedCount = st.parsedCount
    ∧ (noteSchemaKeys st ks).rawItemCount = st.rawItemCount := by
  unfold noteSchemaKeys
  split
  · exact ⟨h, rfl, rfl⟩
  · exact ⟨h, rfl, rfl⟩

theorem noteSourceKeys_core (st : ZigbangRunState) (ks : List String)
    (h : ZigCore st) :
    ZigCore (noteSourceKeys st ks)
    ∧ (noteSourceKeys st ks).parsedCount = st.parsedCount
    ∧ (noteSourceKeys st ks).rawItemCount = st.rawItemCount := by
  unfold noteSourceKeys
  split
  · exact ⟨h, rfl, rfl⟩
  · exact ⟨h, rfl, rfl⟩

theorem noteSourceKeysOpt_core (st : ZigbangRunState)
    (ks : Option (List String)) (h : ZigCore st) :
    ZigCore (noteSourceKeysOpt st ks)
    ∧ (noteSourceKeysOpt st ks).parsedCount = st.parsedCount
    ∧ (noteSourceKeysOpt st ks).rawItemCount = st.rawItemCount := by
  cases ks with
  | none => exact ⟨h, rfl, rfl⟩
  | some ks => exact noteSourceKeys_core st ks h

theorem addParsedRow_inv (st : ZigbangRunState) (row : ListingUpsert)
    (h : ZigCore st) :
    ZigCore (addParsedRow st row)
    ∧ (addParsedRow st row).parsedCount ≤ st.parsedCount + 1
    ∧ (addParsedRow st row).rawItemCount = st.rawItemCount := by
  obtain ⟨hp, he, hnd, hcl⟩ := h
  unfold addParsedRow
  by_cases hmem : row.sourceId ∈ st.seenListingSourceIds
  · rw [if_pos hmem]
    exact ⟨⟨hp, he, hnd, hcl⟩, by omega, rfl⟩
  · rw [if_neg hmem]
    refine ⟨⟨?_, he, ?_, ?_⟩, ?_, rfl⟩
    · show st.parsedCount + 1 = (st.allRows ++ [row]).length
      simp [hp]
    · show ((st.allRows ++ [row]).map ListingUpsert.sourceId).Nodup
      simp only [List.map_append, List.map_cons, List.map_nil]
      rw [List.nodup_append]
      refine ⟨hnd, List.nodup_singleton _, ?_⟩
      intro a ha hb
      simp at hb
      subst hb
      obtain ⟨row0, hrow0, hsid⟩ := List.mem_map.mp ha
      exact hmem (hsid ▸ hcl row0 hrow0)
    · intro row0 hrow0
      show row0.sourceId ∈ st.seenListingSourceIds ++ [row.sourceId]
      rcases List.mem_append.mp hrow0 with hm | hm
      · exact List.mem_append_left _ (hcl row0 hm)
      · simp at hm
        subst hm
        exact List.mem_append_right _ (by simp)
    · show st.parsedCount + 1 ≤ st.parsedCount + 1
      omega

theorem aptItemStage2_inv {Item Detail : Type} (env : ZigbangEnv Item Detail)
    (regionName : String) (st : ZigbangRunState) (item : Item)
    (h : ZigCore st) :
    ZigCore (aptItemStage2 env regionName st item)
    ∧ (aptItemStage2 env regionName st item).parsedCount ≤
        st.parsedCount + 1
    ∧ (aptItemStage2 env regionName st item).rawItemCount =
        st.rawItemCount := by
  by_cases ht : env.tranType item = "trade"
  · have heq : aptItemStage2 env regionName st item = st := by
      unfold aptItemStage2
      rw [if_pos ht]
    rw [heq]
    exact ⟨h, by omega, rfl⟩
  · cases hpo : env.parseAptCatalogItem item regionName with
    | none =>
      have heq : aptItemStage2 env regionName st item =
          { st with invalidCount := st.invalidCount + 1 } := by
        unfold aptItemStage2
        rw [if_neg ht, hpo]
      rw [heq]
      refine ⟨h, ?_, rfl⟩
      show st.parsedCount ≤ st.parsedCount + 1
      omega
    | some row =>
      have heq : aptItemStage2 env regionName st item = addParsedRow st row := by
        unfold aptItemStage2
        rw [if_neg ht, hpo]
      rw [heq]
      exact addParsedRow_inv st row h

theorem processAptCatalogItem_inv {Item Detail : Type}
    (env : ZigbangEnv Item Detail) (regionName : String)
    (st : ZigbangRunState) (item : Item) (h : ZigCore st) :
    ZigCore (processAptCatalogItem env regionName st item)
    ∧ (processAptCatalogItem env regionName st item).parsedCount ≤
        st.parsedCount + 1
    ∧ (processAptCatalogItem env regionName st item).rawItemCount =
        st.rawItemCount := by
  unfold processAptCatalogItem
  obtain ⟨hc1, hp1, hr1⟩ := noteSchemaKeys_core st (env.topLevelKeys item) h
  obtain ⟨hc2, hp2, hr2⟩ := aptItemStage2_inv env regionName
    (noteSchemaKeys st (env.topLevelKeys item)) item hc1
  exact ⟨hc2, by omega, by rw [hr2, hr1]⟩

theorem searchItemStage3_inv {Item Detail : Type}
    (env : ZigbangEnv Item Detail) (regionName : String)
    (st : ZigbangRunState) (item : Item) (sid : String) (h : ZigCore st) :
    ZigCore (searchItemStage3 env regionName st item sid)
    ∧ (searchItemStage3 env regionName st item sid).parsedCount ≤
        st.parsedCount + 1
    ∧ (searchItemStage3 env regionName st item sid).rawItemCount =
        st.rawItemCount := by
  cases hp : env.parseItem item regionName with
  | some row =>
    have heq : searchItemStage3 env regionName st item sid =
        addParsedRow st row := by
      unfold searchItemStage3
      rw [hp]
    rw [heq]
    exact addParsedRow_inv st row h
  | none =>
    by_cases hs : sid = ""
    · have heq : searchItemStage3 env regionName st item sid =
          { st with invalidCount := st.invalidCount + 1 } := by
        unfold searchItemStage3
        rw [hp]
        rw [if_pos hs]
      rw [heq]
      refine ⟨h, ?_, rfl⟩
      show st.parsedCount ≤ st.parsedCount + 1
      omega
    · cases hfd : env.fetchItemDetails sid with
      | none =>
        have heq : searchItemStage3 env regionName st item sid =
            { st with invalidCount := st.invalidCount + 1 } := by
          unfold searchItemStage3
          rw [hp]
          rw [if_neg hs, hfd]
        rw [heq]
        refine ⟨h, ?_, rfl⟩
        show st.parsedCount ≤ st.parsedCount + 1
        omega
      | some d =>
        cases hcand : (env.detailListingCandidates d).findSome?
            (fun c => env.parseItem c regionName) with
        | some row =>
          have heq : searchItemStage3 env regionName st item sid =
              addParsedRow st row := by
            unfold searchItemStage3
            simp only [hp, if_neg hs, hfd, hcand]
          rw [heq]
          exact addParsedRow_inv st row h
        | none =>
          have heq : searchItemStage3 env regionName st item sid =
              { st with invalidCount := st.invalidCount + 1 } := by
            unfold searchItemStage3
            simp only [hp, if_neg hs, hfd, hcand]
          rw [heq]
          refine ⟨h, ?_, rfl⟩
          show st.parsedCount ≤ st.parsedCount + 1
          omega

theorem searchItemStage2_inv {Item Detail : Type}
    (env : ZigbangEnv Item Detail) (regionName : String)
    (st : ZigbangRunState) (item : Item) (h : ZigCore st) :
    ZigCore (searchItemStage2 env regionName st item)
    ∧ (searchItemStage2 env regionName st item).parsedCount ≤
        st.parsedCount + 1
    ∧ (searchItemStage2 env regionName st item).rawItemCount =
        st.rawItemCount := by
  unfold searchItemStage2
  by_cases hskip : env.extractSourceId item ≠ "" ∧
      env.extractSourceId item ∈ st.seenSearchItemIds
  · rw [if_pos hskip]
    exact ⟨h, by omega, rfl⟩
  · rw [if_neg hskip]
    by_cases hsid : env.extractSourceId item ≠ ""
    · rw [if_pos hsid]
      have h2 : ZigCore { st with seenSearchItemIds :=
          st.seenSearchItemIds ++ [env.extractSourceId item] } := h
      obtain ⟨hc3, hp3, hr3⟩ := searchItemStage3_inv env regionName
        { st with seenSearchItemIds :=
            st.seenSearchItemIds ++ [env.extractSourceId item] }
        item (env.extractSourceId item) h2
      exact ⟨hc3, hp3, hr3⟩
    · rw [if_neg hsid]
      exact searchItemStage3_inv env regionName st item
        (env.extractSourceId item) h

theorem processSearchItem_inv {Item Detail : Type}
    (env : ZigbangEnv Item Detail) (regionName : String)
    (st : ZigbangRunState) (item : Item) (h : ZigCore st) :
    ZigCore (processSearchItem env regionName st item)
    ∧ (processSearchItem env regionName st item).parsedCount ≤
        st.parsedCount + 1
    ∧ (processSearchItem env regionName st item).rawItemCount =
        st.rawItemCount := by
  unfold processSearchItem
  obtain ⟨hc1, hp1, hr1⟩ := noteSchemaKeys_core st (env.topLevelKeys item) h
  obtain ⟨hc2, hp2, hr2⟩ := noteSourceKeysOpt_core
    (noteSchemaKeys st (env.topLevelKeys item)) (env.sourceKeys item) hc1
  obtain ⟨hc3, hp3, hr3⟩ := searchItemStage2_inv env regionName
    (noteSourceKeysOpt (noteSchemaKeys st (env.topLevelKeys item))
      (env.sourceKeys item)) item hc2
  exact ⟨hc3, by omega, by rw [hr3, hr2, hr1]⟩

theorem foldl_item_inv {Item : Type}
    (f : ZigbangRunState → Item → ZigbangRunState)
    (hf : ∀ st x, ZigCore st → ZigCore (f st x) ∧
      (f st x).parsedCount ≤ st.parsedCount + 1 ∧
      (f st x).rawItemCount = st.rawItemCount)
    (items : List Item) : ∀ st, ZigCore st →
    ZigCore (items.foldl f st)
    ∧ (items.foldl f st).parsedCount ≤ st.parsedCount + items.length
    ∧ (items.foldl f st).rawItemCount = st.rawItemCount := by
  induction items with
  | nil => intro st h; exact ⟨h, by simp, rfl⟩
  | cons x rest ih =>
    intro st h
    rw [List.foldl_cons]
    obtain ⟨hc, hp, hr⟩ := hf st x h
    obtain ⟨hc2, hp2, hr2⟩ := ih (f st x) hc
    refine ⟨hc2, ?_, by rw [hr2, hr]⟩
    simp only [List.length_cons]
    omega

theorem processAptCell_good {Item Detail : Type}
    (env : ZigbangEnv Item Detail) (regionName regionCode : String)
    (st : ZigbangRunState) (h : ZigGood st) :
    ZigGood (processAptCell env regionName regionCode st) := by
  obtain ⟨hc, hb⟩ := h
  unfold processAptCell
  by_cases he : (env.fetchAptItemCatalogs regionCode).isEmpty
  · rw [if_pos he]
    exact ⟨hc, hb⟩
  · rw [if_neg he]
    have hc1 : ZigCore { st with rawItemCount :=
        st.rawItemCount + (env.fetchAptItemCatalogs regionCode).length } := hc
    obtain ⟨hc2, hp2, hr2⟩ := foldl_item_inv
      (processAptCatalogItem env regionName)
      (fun st2 x h2 => processAptCatalogItem_inv env regionName st2 x h2)
      (env.fetchAptItemCatalogs regionCode) _ hc1
    refine ⟨hc2, ?_⟩
    rw [hr2]
    have hps : ({ st with rawItemCount := st.rawItemCount +
        (env.fetchAptItemCatalogs regionCode).length } :
        ZigbangRunState).parsedCount = st.parsedCount := rfl
    have hrs : ({ st with rawItemCount := st.rawItemCount +
        (env.fetchAptItemCatalogs regionCode).length } :
        ZigbangRunState).rawItemCount = st.rawItemCount +
        (env.fetchAptItemCatalogs regionCode).length := rfl
    omega

theorem processSearchCell_good {Item Detail : Type}
    (env : ZigbangEnv Item Detail)
    (regionName propertyType rentType : String)
    (st : ZigbangRunState) (h : ZigGood st) :
    ZigGood (processSearchCell env regionName propertyType rentType st) := by
  obtain ⟨hc, hb⟩ := h
  unfold processSearchCell
  by_cases he : (env.searchByRegionName regionName propertyType
      rentType).isEmpty
  · rw [if_pos he]
    exact ⟨hc, hb⟩
  · rw [if_neg he]
    have hc1 : ZigCore { st with rawItemCount := st.rawItemCount +
        (env.searchByRegionName regionName propertyType rentType).length } :=
      hc
    obtain ⟨hc2, hp2, hr2⟩ := foldl_item_inv (processSearchItem env regionName)
      (fun st2 x h2 => processSearchItem_inv env regionName st2 x h2)
      (env.searchByRegionName regionName propertyType rentType) _ hc1
    refine ⟨hc2, ?_⟩
    rw [hr2]
    have hps : ({ st with rawItemCount := st.rawItemCount +
        (env.searchByRegionName regionName propertyType rentType).length } :
        ZigbangRunState).parsedCount = st.parsedCount := rfl
    have hrs : ({ st with rawItemCount := st.rawItemCount +
        (env.searchByRegionName regionName propertyType rentType).length } :
        ZigbangRunState).rawItemCount = st.rawItemCount +
        (env.searchByRegionName regionName propertyType rentType).length :=
      rfl
    omega

theorem processRentTypes_good {Item Detail : Type}
    (env : ZigbangEnv Item Detail) (regionName propertyType : String)
    (st : ZigbangRunState) (h : ZigGood st) :
    ZigGood (processRentTypes env regionName propertyType st) := by
  unfold processRentTypes
  simp only [List.foldl_cons, List.foldl_nil]
  exact processSearchCell_good env regionName propertyType "월세" _
    (processSearchCell_good env regionName propertyType "전세" st h)

theorem processPropertyType_good {Item Detail : Type}
    (env : ZigbangEnv Item Detail) (regionName : String)
    (regionCode : Option String) (propertyType : String)
    (st : ZigbangRunState) (h : ZigGood st) :
    ZigGood (processPropertyType env regionName regionCode propertyType st) := by
  unfold processPropertyType
  cases regionCode with
  | none => exact processRentTypes_good env regionName propertyType st h
  | some code =>
    show ZigGood (if propertyType = "아파트" then
        processAptCell env regionName code st
      else processRentTypes env regionName propertyType st)
    by_cases hpt : propertyType = "아파트"
    · rw [if_pos hpt]
      exact processAptCell_good env regionName code st h
    · rw [if_neg hpt]
      exact processRentTypes_good env regionName propertyType st h

theorem foldl_pres_good {γ : Type} (f : ZigbangRunState → γ → ZigbangRunState)
    (hf : ∀ st x, ZigGood st → ZigGood (f st x)) (l : List γ) :
    ∀ st, ZigGood st → ZigGood (l.foldl f st) := by
  induction l with
  | nil => intro st h; exact h
  | cons x rest ih =>
    intro st h
    rw [List.foldl_cons]
    exact ih (f st x) (hf st x h)

theorem zigbangRunCells_good {Item Detail : Type}
    (env : ZigbangEnv Item Detail) (regionNames : List String)
    (regionCodes : Option (List String)) (propertyTypes : List String) :
    ZigGood (zigbangRunCells env regionNames regionCodes propertyTypes) := by
  unfold zigbangRunCells
  apply foldl_pres_good _ _ regionNames.enum zigbangInitState ZigGood_init
  intro st p hst
  apply foldl_pres_good _ _ propertyTypes st hst
  intro st2 pt hst2
  exact processPropertyType_good env p.2 (resolveRegionCode regionCodes p.1)
    pt st2 hst2

/-! ## Claim C1: the schema-mismatch guard of ZigbangCrawler.run -/

/-- C1: for every run of ZigbangCrawler.run, if the run observed at least one
raw item and parsed zero of them, the run raises ZigbangSchemaMismatchError
whose payload carries exactly the raw/parsed/invalid counts and the sampled
key-sets of the published metrics; and if the run observed zero raw items it
does not raise and returns a CrawlResult with count = 0. -/
theorem zigbang_schema_mismatch_trigger {Item Detail : Type}
    (env : ZigbangEnv Item Detail) (regionNames : List String)
    (regionCodes : Option (List String)) (propertyTypes : List String) :
    (0 < (zigbangRun env regionNames regionCodes propertyTypes).2.rawCount →
      (zigbangRun env regionNames regionCodes propertyTypes).2.parsedCount = 0 →
      (zigbangRun env regionNames regionCodes propertyTypes).1 =
        Except.error
          ⟨(zigbangRun env regionNames regionCodes propertyTypes).2.rawCount,
           (zigbangRun env regionNames regionCodes propertyTypes).2.parsedCount,
           (zigbangRun env regionNames regionCodes propertyTypes).2.invalidCount,
           (zigbangRun env regionNames regionCodes propertyTypes).2.schemaKeysSample,
           (zigbangRun env regionNames regionCodes propertyTypes).2.sourceKeysSample⟩)
    ∧ ((zigbangRun env regionNames regionCodes propertyTypes).2.rawCount = 0 →
      ∃ res, (zigbangRun env regionNames regionCodes propertyTypes).1 =
          Except.ok res ∧ res.count = 0) := by
  unfold zigbangRun
  by_cases hempty : regionNames.isEmpty
  · rw [if_pos hempty]
    constructor
    · intro h0 _
      exact absurd h0 (by decide)
    · intro _
      exact ⟨⟨0, [], []⟩, rfl, rfl⟩
  · rw [if_neg hempty]
    have hg := zigbangRunCells_good env regionNames regionCodes propertyTypes
    unfold zigbangRunFinish
    by_cases hc :
        0 < (zigbangRunCells env regionNames regionCodes propertyTypes).rawItemCount ∧
        (zigbangRunCells env regionNames regionCodes propertyTypes).parsedCount = 0
    · rw [if_pos hc]
      constructor
      · intro _ _
        rfl
      · intro hraw
        have hraw2 :
            (zigbangRunCells env regionNames regionCodes propertyTypes).rawItemCount =
              0 := hraw
        have h1 := hc.1
        omega
    · rw [if_neg hc]
      constructor
      · intro h0 hp
        have h0a :
            0 < (zigbangRunCells env regionNames regionCodes propertyTypes).rawItemCount :=
          h0
        have hpa :
            (zigbangRunCells env regionNames regionCodes propertyTypes).parsedCount =
              0 := hp
        exact absurd ⟨h0a, hpa⟩ hc
      · intro hraw
        have hraw2 :
            (zigbangRunCells env regionNames regionCodes propertyTypes).rawItemCount =
              0 := hraw
        refine ⟨⟨(zigbangRunCells env regionNames regionCodes propertyTypes).allRows.length,
          (zigbangRunCells env regionNames regionCodes propertyTypes).allRows,
          (zigbangRunCells env regionNames regionCodes propertyTypes).errors⟩,
          rfl, ?_⟩
        have h1 := hg.1.1
        have h2 := hg.2
        show (zigbangRunCells env regionNames regionCodes propertyTypes).allRows.length = 0
        omega

/-- The schema-mismatch run observed 2 raw items, parsed none, and raised the
payload carrying the counts and the single sampled key-set; the run with no
regions configured returns count 0 without raising. -/
theorem zigbang_schema_mismatch_trigger_witness :
    (0 < (zigbangRun zbMismatchEnv ["마포구"] none ["오피스텔"]).2.rawCount
      ∧ (zigbangRun zbMismatchEnv ["마포구"] none ["오피스텔"]).2.parsedCount = 0
      ∧ (zigbangRun zbMismatchEnv ["마포구"] none ["오피스텔"]).1 =
          Except.error ⟨2, 0, 2, [["unexpected"]], []⟩)
    ∧ ((zigbangRun zbMismatchEnv [] none []).2.rawCount = 0
      ∧ ∃ res, (zigbangRun zbMismatchEnv [] none []).1 = Except.ok res ∧
          res.count = 0) := by
  constructor
  · have h := (zigbang_schema_mismatch_trigger zbMismatchEnv ["마포구"] none
      ["오피스텔"]).1 (by decide) (by decide)
    exact ⟨by decide, by decide, h.trans rfl⟩
  · have h := (zigbang_schema_mismatch_trigger zbMismatchEnv [] none []).2
      (by decide)
    exact ⟨by decide, h⟩

/-! ## Claim C10: CrawlResult count coherence -/

/-- C10: every completed (non-raising) ZigbangCrawler.run returns a
CrawlResult whose count equals the length of its rows list and whose rows
carry pairwise-distinct source_id values, and every NaverCrawler.run returns
a CrawlResult whose count equals the length of its rows list. -/
theorem crawl_result_count_invariant {Item Detail Article : Type}
    (env : ZigbangEnv Item Detail) (regionNames : List String)
    (regionCodes : Option (List String)) (propertyTypes : List String)
    (nenv : NaverEnv Article) (nRegionCodes nPropertyTypes : List String) :
    (∀ res,
      (zigbangRun env regionNames regionCodes propertyTypes).1 =
          Except.ok res →
        res.count = res.rows.length ∧
        (res.rows.map ListingUpsert.sourceId).Nodup)
    ∧ (naverRun nenv nRegionCodes nPropertyTypes).count =
        (naverRun nenv nRegionCodes nPropertyTypes).rows.length := by
  constructor
  · intro res hres
    unfold zigbangRun at hres
    by_cases hempty : regionNames.isEmpty
    · rw [if_pos hempty] at hres
      injection hres with h
      subst h
      exact ⟨rfl, List.nodup_nil⟩
    · rw [if_neg hempty] at hres
      have hg := zigbangRunCells_good env regionNames regionCodes propertyTypes
      unfold zigbangRunFinish at hres
      by_cases hc :
          0 < (zigbangRunCells env regionNames regionCodes propertyTypes).rawItemCount ∧
          (zigbangRunCells env regionNames regionCodes propertyTypes).parsedCount = 0
      · rw [if_pos hc] at hres
        exact absurd hres (by simp)
      · rw [if_neg hc] at hres
        injection hres with h
        subst h
        exact ⟨rfl, hg.1.2.2.1⟩
  · rfl

/-- The healthy run saw raw items 1, 2 and 1 again, parsed all three, dropped
the repeat through the run-scoped source-id dedup, and returned count 2 over
two rows with distinct source ids. -/
theorem crawl_result_count_invariant_witness :
    (zigbangRun zbOkEnv ["마포구"] none ["오피스텔"]).1 =
        Except.ok ⟨2, [zbParsedRow "1", zbParsedRow "2"], []⟩
    ∧ (⟨2, [zbParsedRow "1", zbParsedRow "2"], []⟩ :
        CrawlResult ListingUpsert).count =
        ([zbParsedRow "1", zbParsedRow "2"] : List ListingUpsert).length
    ∧ (([zbParsedRow "1", zbParsedRow "2"] : List ListingUpsert).map
        ListingUpsert.sourceId).Nodup := by
  have hres : (zigbangRun zbOkEnv ["마포구"] none ["오피스텔"]).1 =
      Except.ok ⟨2, [zbParsedRow "1", zbParsedRow "2"], []⟩ := rfl
  have h := (crawl_result_count_invariant zbOkEnv ["마포구"] none ["오피스텔"]
    (⟨fun _ _ _ => Except.ok ([] : List Unit), fun _ _ => none⟩ :
      NaverEnv Unit) [] []).1
    ⟨2, [zbParsedRow "1", zbParsedRow "2"], []⟩ hres
  exact ⟨hres, h.1, h.2⟩

end RentRadar
